import Mathlib

/-!
The annotated-style logging engine of `src/log.js`

A shallow embedding of the logger: the directive tokenizer `getMsg`, the
style tables, the terminal renderer `termMapper`, the HTML renderer
`htmlMapper`, and the sink fan-out `display` with the two entry points `log`
and `log.err`.

JavaScript values are represented by what the logger can observe of them:
whether a value is a `RegExp`, the result of `typeof`, and the text string
conversion gives.  Sparse arrays (`styles[index] = ...`) are lists of optional
entries, a hole or an index past the end reading as `undefined`.  Code that
can throw returns `Except Thrown`.
-/

namespace Log

/-! ## JavaScript values -/

/-- A JavaScript value as the logger sees it. -/
inductive Value where
  /-- a number, carried as the text string conversion gives it -/
  | number (text : String)
  | boolean (b : Bool)
  | null
  | undefined
  /-- a function, carried as its source text -/
  | function (source : String)
  | string (s : String)
  /-- an object that is not a `RegExp`, carried as the text of its `toString()` -/
  | object (text : String)
  | symbol (description : String)
  | bigint (n : Int)
  /-- a regular expression `/source/flags` -/
  | regexp (source : String) (flags : String)
  deriving DecidableEq, Repr

/-- What a throwing operation throws; the logger only meets `TypeError`. -/
inductive Thrown where
  | typeError
  deriving DecidableEq, Repr

deriving instance DecidableEq for Except

/-- The test `value instanceof RegExp`. -/
def Value.isRegExp : Value → Bool
  | .regexp _ _ => true
  | _ => false

/-- The operator `typeof`. -/
def typeOf : Value → String
  | .number _ => "number"
  | .boolean _ => "boolean"
  | .null => "object"
  | .undefined => "undefined"
  | .function _ => "function"
  | .string _ => "string"
  | .object _ => "object"
  | .symbol _ => "symbol"
  | .bigint _ => "bigint"
  | .regexp _ _ => "object"

/-- The tag of log.js line 94: `(value === null) ? 'null' : typeof value`. -/
def typeTag (value : Value) : String :=
  if value = Value.null then "null" else typeOf value

/-- String conversion as done by `'...' + value`: a symbol cannot be
converted and throws a `TypeError`. -/
def toStr : Value → Except Thrown String
  | .number text => .ok text
  | .boolean b => .ok (if b then "true" else "false")
  | .null => .ok "null"
  | .undefined => .ok "undefined"
  | .function source => .ok source
  | .string s => .ok s
  | .object text => .ok text
  | .symbol _ => .error .typeError
  | .bigint n => .ok (toString n)
  | .regexp source flags => .ok ("/" ++ source ++ "/" ++ flags)

/-- The text `Array.prototype.join` uses for one element: `undefined` and
`null` give the empty string, everything else is converted as by `toStr`. -/
def joinItem : Value → Except Thrown String
  | .null => .ok ""
  | .undefined => .ok ""
  | v => toStr v

/-- `Array.prototype.join` on an array of strings: `sep` between
neighbours, the empty string for the empty array. -/
def join (sep : String) : List String → String
  | [] => ""
  | [x] => x
  | x :: y :: rest => x ++ sep ++ join sep (y :: rest)

/-- The method `Array.prototype.map` with a callback that may throw: left to
right, stopping at the first call that throws. -/
def mapThrow {α β : Type} (f : α → Except Thrown β) : List α → Except Thrown (List β)
  | [] => .ok []
  | x :: xs =>
    match f x with
    | .error e => .error e
    | .ok y =>
      match mapThrow f xs with
      | .error e => .error e
      | .ok ys => .ok (y :: ys)

/-- `Array.prototype.join` on an array of values. -/
def joinValues (sep : String) (xs : List Value) : Except Thrown String :=
  match mapThrow joinItem xs with
  | .error e => .error e
  | .ok texts => .ok (join sep texts)

/-- The properties every plain object inherits from `Object.prototype`,
each with the text `join` gives it.  A lookup such as `termMap[style]` that
finds no own property falls through to these. -/
def objectPrototype : List (String × String) := [
  ("constructor", "function Object() \x7b [native code] \x7d"),
  ("__defineGetter__", "function __defineGetter__() \x7b [native code] \x7d"),
  ("__defineSetter__", "function __defineSetter__() \x7b [native code] \x7d"),
  ("hasOwnProperty", "function hasOwnProperty() \x7b [native code] \x7d"),
  ("__lookupGetter__", "function __lookupGetter__() \x7b [native code] \x7d"),
  ("__lookupSetter__", "function __lookupSetter__() \x7b [native code] \x7d"),
  ("isPrototypeOf", "function isPrototypeOf() \x7b [native code] \x7d"),
  ("propertyIsEnumerable", "function propertyIsEnumerable() \x7b [native code] \x7d"),
  ("toString", "function toString() \x7b [native code] \x7d"),
  ("valueOf", "function valueOf() \x7b [native code] \x7d"),
  ("__proto__", "[object Object]"),
  ("toLocaleString", "function toLocaleString() \x7b [native code] \x7d")]

/-! ## Sparse arrays -/

/-- The assignment `xs[i] = v` on a sparse array: holes are left below `i`
when the array is shorter. -/
def assign {α : Type} : List (Option α) → Nat → α → List (Option α)
  | [], 0, v => [some v]
  | [], i + 1, v => none :: assign [] i v
  | _ :: xs, 0, v => some v :: xs
  | x :: xs, i + 1, v => x :: assign xs i v

/-- The read `xs[i]`: `none` stands for `undefined`. -/
def read {α : Type} (xs : List (Option α)) (i : Nat) : Option α :=
  xs[i]?.join

/-! ## The style registry and the tokenizer (log.js lines 17-22, 66-105) -/

/-- The table `presets`. -/
def presetsTable : List (String × String) := [
  ("@path", "u cyan"),
  ("@!", "1"),
  ("@prefix", "yellow"),
  ("@ip", "b")]

/-- The lookup `presets[elm]` for an `elm` that starts with `@`: no
inherited property name starts with `@`, so only own properties are found. -/
def presets (elm : String) : Option String :=
  presetsTable.lookup elm

/-- The method `String.prototype.split` with a one-character separator, on
the characters of the string. -/
def splitChars (sep : Char) : List Char → List (List Char)
  | [] => [[]]
  | c :: cs =>
    if c = sep then [] :: splitChars sep cs
    else
      match splitChars sep cs with
      | [] => [[c]]
      | w :: ws => (c :: w) :: ws

/-- The call `s.split(' ')`. -/
def split (s : String) : List String :=
  (splitChars ' ' s.data).map String.mk

/-- The text of `value.toString().slice(1,-1)` for the regular expression
`/source/flags`: the first and the last character are removed. -/
def directiveBody (source flags : String) : String :=
  String.mk ((("/" ++ source ++ "/" ++ flags).data.drop 1).dropLast)

/-- The callback of `.map` at log.js lines 78-86 followed by the flattening
`[].concat(...)`: an element that starts with `@` is replaced by the split
value of its preset (of the empty string when there is none), any other
element is kept. -/
def expandElm (elm : String) : List String :=
  match elm.data with
  | '@' :: _ => split ((presets elm).getD "")
  | _ => [elm]

/-- The style list recorded for the directive `/source/flags`
(log.js lines 75-87). -/
def directiveStyles (source flags : String) : List String :=
  ((split (directiveBody source flags)).map expandElm).flatten

/-- The array returned by `getMsg` with its two properties. -/
structure Msg where
  output : List Value
  styles : List (Option (List String))
  type : List (Option String)
  deriving DecidableEq, Repr

/-- The variables of `getMsg` while it loops over its arguments. -/
structure Scan where
  index : Nat
  styles : List (Option (List String))
  type : List (Option String)
  output : List Value
  deriving DecidableEq, Repr

/-- One call of the filter callback of `getMsg` (log.js lines 72-99). -/
def getMsgStep (st : Scan) (value : Value) : Scan :=
  match value with
  | .regexp source flags =>
    { st with styles := assign st.styles st.index (directiveStyles source flags) }
  | v =>
    { st with
      type := assign st.type st.index (typeTag v)
      index := st.index + 1
      output := st.output ++ [v] }

/-- The state `getMsg` starts from. -/
def Scan.init : Scan := ⟨0, [], [], []⟩

/-- The function `getMsg` of log.js. -/
def getMsg (args : List Value) : Msg :=
  let st := args.foldl getMsgStep Scan.init
  { output := st.output, styles := st.styles, type := st.type }

/-! ## The terminal renderer (log.js lines 109-170) -/

/-- The table `termMap`. -/
def termMap : List (String × Nat) := [
  ("black", 30), ("red", 31), ("green", 32), ("yellow", 33), ("blue", 34),
  ("magenta", 35), ("cyan", 36), ("white", 37), ("gray", 90),
  ("_black", 40), ("_red", 41), ("_green", 42), ("_yellow", 43), ("_blue", 44),
  ("_magenta", 45), ("_cyan", 46), ("_white", 47), ("_gray", 100),
  ("b", 1), ("i", 3), ("u", 4)]

/-- The table `termDefaults`. -/
def termDefaultsTable : List (String × List Nat) := [
  ("number", [33]), ("boolean", [33]), ("null", [1]), ("undefined", [90]),
  ("function", [36]), ("string", [35])]

/-- The lookup `termDefaults[type]` where it is an array; `none` stands for
everything on which `.concat` and `.join` are not callable (`undefined` and
the inherited properties).  Each code is carried as the text `join` gives
it. -/
def termDefaults (type : String) : Option (List String) :=
  (termDefaultsTable.lookup type).map (List.map toString)

/-- The lookup `termMap[style]`, carried as the text `join` gives the
result: the digits of an own code, the text of an inherited property, the
empty string for `undefined`. -/
def termCode (style : String) : String :=
  match termMap.lookup style with
  | some code => toString code
  | none => (objectPrototype.lookup style).getD ""

/-- The function `addTermStyles`; `styles` is `none` when the caller passes
something that has no `join`, which throws. -/
def addTermStyles (styles : Option (List String)) (value : Value) : Except Thrown Value :=
  match styles with
  | none => .error .typeError
  | some styles =>
    match toStr value with
    | .error e => .error e
    | .ok text => .ok (.string ("\x1b[" ++ join ";" styles ++ "m" ++ text ++ "\x1b[0m"))

/-- The function `termMapper`.  A missing `arr.type[i]` reads as
`undefined`, which as a property key is the text `undefined`. -/
def termMapper (value : Value) (i : Nat) (arr : Msg) : Except Thrown Value :=
  let styles := read arr.styles i
  let type := (read arr.type i).getD "undefined"
  if type = "object" then .ok value
  else
    match styles with
    | some styles =>
      match termDefaults type with
      | none => .error .typeError
      | some defaults => addTermStyles (some (defaults ++ styles.map termCode)) value
    | none => addTermStyles (termDefaults type) value

/-! ## The HTML renderer (log.js lines 174-224) -/

/-- The table `htmlMap`. -/
def htmlMap : List (String × String) := [
  ("black", "color: black"), ("red", "color: red"), ("green", "color: green"),
  ("yellow", "color: yellow"), ("blue", "color: blue"), ("magenta", "color: magenta"),
  ("cyan", "color: cyan"), ("white", "color: white"), ("gray", "color: gray"),
  ("_black", "background: black"), ("_red", "background: red"),
  ("_green", "background: green"), ("_yellow", "background: yellow"),
  ("_blue", "background: blue"), ("_magenta", "background: magenta"),
  ("_cyan", "background: cyan"), ("_white", "background: white"),
  ("_gray", "background: gray"),
  ("b", "font-weight: bold"), ("i", "font-style: italic"),
  ("u", "text-decoration: underline")]

/-- The lookup `htmlMap[style]`, carried as the text `join` gives the
result. -/
def htmlFragment (style : String) : String :=
  match htmlMap.lookup style with
  | some css => css
  | none => (objectPrototype.lookup style).getD ""

/-- The last two statements of `htmlMapper` (log.js lines 220-223). -/
def htmlSpan (attr : List String) (value : Value) : Except Thrown Value :=
  if attr.length ≠ 0 then
    match toStr value with
    | .error e => .error e
    | .ok text => .ok (.string ("<span " ++ join " " attr ++ ">" ++ text ++ "</span>"))
  else .ok value

/-- The function `htmlMapper`; `format` is `util.format`. -/
def htmlMapper (format : List Value → String) (value : Value) (i : Nat) (arr : Msg) :
    Except Thrown Value :=
  let styles := read arr.styles i
  let type := (read arr.type i).getD "undefined"
  let attr := ["class=\"" ++ type ++ "\""]
  if type = "object" then htmlSpan attr (.string (format [value]))
  else
    match styles with
    | some styles =>
      htmlSpan (attr ++ ["style=\"" ++ join ";" (styles.map htmlFragment) ++ "\""]) value
    | none => htmlSpan attr value

/-- The loop of `arr.map(f)` over the elements `vs` that start at index `i`:
left to right, stopping at the first call that throws. -/
def mapFrom {β : Type} (f : Value → Nat → Msg → Except Thrown β) (arr : Msg) :
    List Value → Nat → Except Thrown (List β)
  | [], _ => .ok []
  | v :: vs, i =>
    match f v i arr with
    | .error e => .error e
    | .ok b =>
      match mapFrom f arr vs (i + 1) with
      | .error e => .error e
      | .ok bs => .ok (b :: bs)

/-- The call `arr.map(f)` on the array returned by `getMsg`. -/
def mapMsg {β : Type} (f : Value → Nat → Msg → Except Thrown β) (arr : Msg) :
    Except Thrown (List β) :=
  mapFrom f arr arr.output 0

/-! ## The sink fan-out and the entry points (log.js lines 26-61, 228-264) -/

/-- A subscriber callback: what the logger observes of a call is whether it
returns or throws. -/
abbrev Listener := String → Except Thrown Unit

/-- What the module reads from its surroundings: the constant `tty`, the
library function `util.format`, and the array `listeners`. -/
structure Env where
  tty : Bool
  format : List Value → String
  listeners : List Listener

/-- Everything the logger writes to. -/
structure Sinks where
  /-- the argument lists of the calls of `console.log` -/
  console : List (List Value)
  /-- the lines written with `file.log` (log.txt) -/
  logFile : List String
  /-- the lines written with `file.error` (err.txt) -/
  errFile : List String
  /-- the argument lists of the calls of `console.error` -/
  errConsole : List (List Value)
  /-- the array `db` -/
  db : List String
  /-- the calls of subscriber callbacks: the index in `listeners` and the
  argument -/
  delivered : List (Nat × String)
  deriving DecidableEq, Repr

/-- The state at process start. -/
def Sinks.empty : Sinks := ⟨[], [], [], [], [], []⟩

/-- The function `prefixTermMapper`. -/
def prefixTermMapper (value : Value) : Except Thrown Value :=
  match mapMsg termMapper (getMsg [.regexp "green b u" "", value]) with
  | .error e => .error e
  | .ok parts =>
    match joinValues " " parts with
    | .error e => .error e
    | .ok text => .ok (.string text)

/-- The function `prefixHtmlMapper`, for a string `value`. -/
def prefixHtmlMapper (value : String) : String :=
  " data-name=\"" ++ value ++ "\" class=\"" ++ value ++ "\""

/-- The array of log.js line 35, `(this && this.prefix) ? [this.prefix] : []`,
for a `this.prefix` that is a string or missing: the empty string is falsy. -/
def prefixArray (thisPrefix : Option String) : List String :=
  match thisPrefix with
  | some name => if name = "" then [] else [name]
  | none => []

/-- The arguments `display` gives to `console.log` (log.js lines 38-41). -/
def consoleArgs (tty : Bool) (names : List String) (msg : Msg) : Except Thrown (List Value) :=
  match mapThrow (fun name => prefixTermMapper (.string name)) names with
  | .error e => .error e
  | .ok shownNames =>
    match (if tty then mapMsg termMapper msg else .ok msg.output) with
    | .error e => .error e
    | .ok shown => .ok (shownNames ++ shown)

/-- The text `display` gives to `file.log` (log.js line 42). -/
def fileText (format : List Value → String) (names : List String) (msg : Msg) : String :=
  format (.string "%s" :: (names.map Value.string ++ msg.output))

/-- The fragment `para` of log.js line 45. -/
def htmlPara (format : List Value → String) (names : List String) (msg : Msg) :
    Except Thrown String :=
  match mapMsg (htmlMapper format) msg with
  | .error e => .error e
  | .ok children =>
    match joinValues " " children with
    | .error e => .error e
    | .ok inner => .ok ("<div" ++ join "" (names.map prefixHtmlMapper) ++ ">" ++ inner ++ "</div>")

/-- The loop `listeners.forEach((callback) => callback(para))` from the
callback at index `i` on: a callback that throws ends the loop. -/
def notify (para : String) : List Listener → Nat → Sinks → Except Thrown Unit × Sinks
  | [], _, s => (.ok (), s)
  | callback :: rest, i, s =>
    let s1 := { s with delivered := s.delivered ++ [(i, para)] }
    match callback para with
    | .error e => (.error e, s1)
    | .ok _ => notify para rest (i + 1) s1

/-- The function `display`: the returned `msg` or what was thrown, and the
sinks as the call leaves them. -/
def display (env : Env) (thisPrefix : Option String) (args : List Value) (s : Sinks) :
    Except Thrown Msg × Sinks :=
  let msg := getMsg args
  let names := prefixArray thisPrefix
  match consoleArgs env.tty names msg with
  | .error e => (.error e, s)
  | .ok shown =>
    let s1 := { s with console := s.console ++ [shown] }
    let s2 := { s1 with logFile := s1.logFile ++ [fileText env.format names msg] }
    match htmlPara env.format names msg with
    | .error e => (.error e, s2)
    | .ok para =>
      let s3 := { s2 with db := s2.db ++ [para] }
      match notify para env.listeners 0 s3 with
      | (.error e, s4) => (.error e, s4)
      | (.ok _, s4) => (.ok msg, s4)

/-- The entry point `log`. -/
def log (env : Env) (thisPrefix : Option String) (args : List Value) (s : Sinks) :
    Except Thrown Unit × Sinks :=
  match display env thisPrefix args s with
  | (.error e, s1) => (.error e, s1)
  | (.ok _, s1) => (.ok (), s1)

/-- The argument list `log.err` hands to `display` (log.js line 251). -/
def errArgs (args : List Value) : List Value :=
  .regexp "red b u" "" :: .string "ERROR:" :: args

/-- The entry point `log.err`; the returned relay object is not modelled. -/
def logErr (env : Env) (thisPrefix : Option String) (args : List Value) (s : Sinks) :
    Except Thrown Unit × Sinks :=
  match display env thisPrefix (errArgs args) s with
  | (.error e, s1) => (.error e, s1)
  | (.ok msg, s1) =>
    (.ok (), { s1 with errFile := s1.errFile ++ [env.format (.string "%s" :: msg.output)] })

/-- The relay `ERROR` returned by `log.err`: its arguments go to the error
file and to `console.error` as they are. -/
def ERROR (env : Env) (args : List Value) (s : Sinks) : Sinks :=
  { s with errFile := s.errFile ++ [env.format args], errConsole := s.errConsole ++ [args] }

/-! ## Tokens: the view of a message the specification speaks of -/

/-- A token: a value of `output` with the entries of `type` and `styles` at
its index (`none` where the array has no entry). -/
structure Token where
  value : Value
  type : Option String
  styles : Option (List String)
  deriving DecidableEq, Repr

/-- The tokens of the values `vs` that sit at the indices from `i` on. -/
def tokensFrom (styles : List (Option (List String))) (type : List (Option String)) :
    Nat → List Value → List Token
  | _, [] => []
  | i, v :: vs => ⟨v, read type i, read styles i⟩ :: tokensFrom styles type (i + 1) vs

/-- The tokens of a message, in order. -/
def tokens (msg : Msg) : List Token :=
  tokensFrom msg.styles msg.type 0 msg.output

/-- The tokenizer as the specification words it (section 4.1): a directive
becomes the pending style of the next position and emits nothing; a value
takes the pending style, if any, and is emitted. -/
def pairScan (pending : Option (List String)) : List Value → List Token
  | [] => []
  | .regexp source flags :: rest => pairScan (some (directiveStyles source flags)) rest
  | v :: rest => ⟨v, some (typeTag v), pending⟩ :: pairScan none rest

/-- The pending style after the arguments `pre`, starting from `pending`:
the styles of the last argument when it is a directive, nothing after a
value. -/
def pendingAfter (pending : Option (List String)) (pre : List Value) : Option (List String) :=
  pre.foldl (fun _ v =>
    match v with
    | .regexp source flags => some (directiveStyles source flags)
    | _ => none) pending

/-- The test of a data value: not a directive. -/
def isData (v : Value) : Bool := !v.isRegExp

/-- A sequence of calls of `display`, each with its `this.prefix` and its
arguments; a call that throws leaves the sinks as they are at the throw, and
the next call goes on from there. -/
def displayAll (env : Env) (calls : List (Option String × List Value)) (s : Sinks) : Sinks :=
  calls.foldl (fun s1 call => (display env call.1 call.2 s1).2) s

/-- The fragment `display` builds for a call (the empty string when
building it throws). -/
def paraOf (env : Env) (call : Option String × List Value) : String :=
  match htmlPara env.format (prefixArray call.1) (getMsg call.2) with
  | .ok para => para
  | .error _ => ""

/-- The names of the text colours as the comment at the top of log.js
lists them (lines 6-12): `black, red, green, yellow, blue, magenta, cyan,
white, gray`. -/
def textColors : List String :=
  ["black", "red", "green", "yellow", "blue", "magenta", "cyan", "white", "gray"]

/-- The seven type tags of the specification's data model (section 3). -/
def documentedTags : List String :=
  ["number", "boolean", "null", "undefined", "function", "string", "object"]

/-! ## Sparse arrays: lemmas -/

theorem read_nil {α : Type} (i : Nat) : read ([] : List (Option α)) i = none := by
  simp [read]

theorem read_cons_zero {α : Type} (x : Option α) (xs : List (Option α)) :
    read (x :: xs) 0 = x := by
  simp [read]

theorem read_cons_succ {α : Type} (x : Option α) (xs : List (Option α)) (i : Nat) :
    read (x :: xs) (i + 1) = read xs i := by
  simp [read]

theorem read_assign_same {α : Type} (xs : List (Option α)) (i : Nat) (v : α) :
    read (assign xs i v) i = some v := by
  induction i generalizing xs with
  | zero => cases xs <;> simp [assign, read]
  | succ i ih =>
    cases xs with
    | nil => simpa [assign, read_cons_succ] using ih []
    | cons x xs => simpa [assign, read_cons_succ] using ih xs

theorem read_assign_ne {α : Type} (xs : List (Option α)) (i j : Nat) (v : α) (h : j ≠ i) :
    read (assign xs i v) j = read xs j := by
  induction i generalizing xs j with
  | zero =>
    cases j with
    | zero => exact absurd rfl h
    | succ j => cases xs <;> simp [assign, read]
  | succ i ih =>
    cases j with
    | zero => cases xs <;> simp [assign, read]
    | succ j =>
      have hj : j ≠ i := fun e => h (by rw [e])
      cases xs with
      | nil => simpa [assign, read_cons_succ, read_nil] using ih [] j hj
      | cons x xs => simpa [assign, read_cons_succ] using ih xs j hj

theorem length_assign_le {α : Type} (xs : List (Option α)) (i n : Nat) (v : α)
    (hx : xs.length ≤ n) (hi : i < n) : (assign xs i v).length ≤ n := by
  induction i generalizing xs n with
  | zero => cases xs <;> simp_all [assign]; omega
  | succ i ih =>
    cases n with
    | zero => omega
    | succ n =>
      cases xs with
      | nil => simpa [assign] using ih [] n (by simp) (by omega)
      | cons x xs => simpa [assign] using ih xs n (by simpa using hx) (by omega)

theorem read_of_length_le {α : Type} (xs : List (Option α)) (i : Nat) (h : xs.length ≤ i) :
    read xs i = none := by
  simp [read, List.getElem?_eq_none h]

/-! ## The tokenizer: lemmas -/

theorem tokensFrom_congr (s s1 : List (Option (List String))) (t t1 : List (Option String))
    (vs : List Value) (i : Nat)
    (hs : ∀ k, i ≤ k → k < i + vs.length → read s1 k = read s k)
    (ht : ∀ k, i ≤ k → k < i + vs.length → read t1 k = read t k) :
    tokensFrom s1 t1 i vs = tokensFrom s t i vs := by
  induction vs generalizing i with
  | nil => rfl
  | cons v vs ih =>
    simp only [tokensFrom, List.length_cons] at *
    rw [hs i (Nat.le_refl i) (by omega), ht i (Nat.le_refl i) (by omega)]
    rw [ih (i + 1) (fun k h1 h2 => hs k (by omega) (by omega))
      (fun k h1 h2 => ht k (by omega) (by omega))]

theorem tokensFrom_append (s : List (Option (List String))) (t : List (Option String))
    (vs ws : List Value) (i : Nat) :
    tokensFrom s t i (vs ++ ws) = tokensFrom s t i vs ++ tokensFrom s t (i + vs.length) ws := by
  induction vs generalizing i with
  | nil => simp [tokensFrom]
  | cons v vs ih =>
    have e : i + 1 + vs.length = i + (vs.length + 1) := by omega
    rw [List.cons_append]
    simp only [tokensFrom, List.length_cons]
    rw [ih (i + 1), e, List.cons_append]

theorem tokensFrom_length (s : List (Option (List String))) (t : List (Option String))
    (vs : List Value) (i : Nat) : (tokensFrom s t i vs).length = vs.length := by
  induction vs generalizing i with
  | nil => rfl
  | cons v vs ih => simp [tokensFrom, ih]

theorem tokensFrom_getElem? (s : List (Option (List String))) (t : List (Option String))
    (vs : List Value) (i k : Nat) :
    (tokensFrom s t i vs)[k]? = vs[k]?.map (fun v => ⟨v, read t (i + k), read s (i + k)⟩) := by
  induction vs generalizing i k with
  | nil => simp [tokensFrom]
  | cons v vs ih =>
    cases k with
    | zero => simp [tokensFrom]
    | succ k =>
      simp only [tokensFrom, List.getElem?_cons_succ, ih (i + 1) k]
      rw [show i + 1 + k = i + (k + 1) by omega]

theorem pairScan_data (pending : Option (List String)) (v : Value) (rest : List Value)
    (hv : isData v = true) :
    pairScan pending (v :: rest) = ⟨v, some (typeTag v), pending⟩ :: pairScan none rest := by
  cases v <;> simp_all [pairScan, isData, Value.isRegExp]

theorem getMsgStep_data (st : Scan) (v : Value) (hv : isData v = true) :
    getMsgStep st v =
      { st with
        type := assign st.type st.index (typeTag v)
        index := st.index + 1
        output := st.output ++ [v] } := by
  cases v <;> simp_all [getMsgStep, isData, Value.isRegExp]

theorem isData_regexp (source flags : String) : isData (.regexp source flags) = false := rfl

theorem isData_false (v : Value) (hv : isData v = false) :
    ∃ source flags, v = .regexp source flags := by
  cases v <;> simp_all [isData, Value.isRegExp]

/-- The loop of `getMsg` from any state in which `output` has `index`
elements and `styles` has no entry past `index`: the tokens are those the
state already has followed by the tokens of the pairwise scan. -/
theorem foldl_getMsgStep_tokens (args : List Value) (st : Scan)
    (hout : st.output.length = st.index) (hlen : st.styles.length ≤ st.index + 1) :
    tokensFrom (args.foldl getMsgStep st).styles (args.foldl getMsgStep st).type 0
        (args.foldl getMsgStep st).output
      = tokensFrom st.styles st.type 0 st.output ++ pairScan (read st.styles st.index) args := by
  induction args generalizing st with
  | nil => simp [pairScan]
  | cons a rest ih =>
    rw [List.foldl_cons]
    cases hd : isData a with
    | false =>
      obtain ⟨source, flags, rfl⟩ := isData_false a hd
      have h1 := ih { st with styles := assign st.styles st.index (directiveStyles source flags) }
        hout (length_assign_le _ _ _ _ hlen (Nat.lt_succ_self _))
      simp only [getMsgStep]
      rw [h1]
      simp only [read_assign_same, pairScan]
      congr 1
      apply tokensFrom_congr
      · intro k _ hk
        exact read_assign_ne _ _ _ _ (by simp at hk; omega)
      · intro k _ _
        rfl
    | true =>
      rw [getMsgStep_data st a hd]
      have h1 := ih { st with
          type := assign st.type st.index (typeTag a)
          index := st.index + 1
          output := st.output ++ [a] } (by simp [hout])
        (by simp only; omega)
      rw [h1, pairScan_data _ a rest hd]
      simp only [tokensFrom_append, tokensFrom, hout, Nat.zero_add, read_assign_same,
        read_of_length_le st.styles (st.index + 1) hlen, List.append_assoc, List.singleton_append]
      congr 1
      apply tokensFrom_congr
      · intro k _ _
        rfl
      · intro k _ hk
        exact read_assign_ne _ _ _ _ (by simp at hk; omega)

/-- The refinement: `getMsg` computes the pairwise scan of section 4.1. -/
theorem tokens_getMsg (args : List Value) : tokens (getMsg args) = pairScan none args := by
  have h := foldl_getMsgStep_tokens args Scan.init rfl (by simp [Scan.init])
  simpa [tokens, getMsg, Scan.init, tokensFrom, read_nil] using h

theorem foldl_getMsgStep_output (args : List Value) (st : Scan) :
    (args.foldl getMsgStep st).output = st.output ++ args.filter isData := by
  induction args generalizing st with
  | nil => simp
  | cons a rest ih =>
    rw [List.foldl_cons, ih]
    cases hd : isData a with
    | false =>
      obtain ⟨source, flags, rfl⟩ := isData_false a hd
      simp [getMsgStep, isData, Value.isRegExp]
    | true =>
      rw [getMsgStep_data st a hd]
      simp [hd]

theorem output_getMsg (args : List Value) : (getMsg args).output = args.filter isData := by
  simpa [getMsg, Scan.init] using foldl_getMsgStep_output args Scan.init

theorem pairScan_append (pending : Option (List String)) (pre rest : List Value) :
    pairScan pending (pre ++ rest)
      = pairScan pending pre ++ pairScan (pendingAfter pending pre) rest := by
  induction pre generalizing pending with
  | nil => simp [pairScan, pendingAfter]
  | cons a pre ih =>
    cases hd : isData a with
    | false =>
      obtain ⟨source, flags, rfl⟩ := isData_false a hd
      rw [List.cons_append]
      simp only [pairScan]
      rw [ih]
      rfl
    | true =>
      rw [List.cons_append, pairScan_data _ a _ hd, pairScan_data _ a _ hd, ih]
      cases a <;> simp_all [pendingAfter, isData, Value.isRegExp]

theorem pairScan_length (pending : Option (List String)) (args : List Value) :
    (pairScan pending args).length = (args.filter isData).length := by
  induction args generalizing pending with
  | nil => simp [pairScan]
  | cons a rest ih =>
    cases hd : isData a with
    | false =>
      obtain ⟨source, flags, rfl⟩ := isData_false a hd
      simp [pairScan, ih, isData, Value.isRegExp]
    | true =>
      rw [pairScan_data _ a _ hd]
      simp [ih, hd]

theorem pendingAfter_concat_regexp (pending : Option (List String)) (p : List Value)
    (source flags : String) :
    pendingAfter pending (p ++ [.regexp source flags]) = some (directiveStyles source flags) := by
  simp [pendingAfter, List.foldl_append]

theorem pendingAfter_none (pre : List Value)
    (h : ∀ p source flags, pre ≠ p ++ [.regexp source flags]) :
    pendingAfter none pre = none := by
  rcases List.eq_nil_or_concat pre with rfl | ⟨p, a, rfl⟩
  · rfl
  · rw [List.concat_eq_append] at h ⊢
    cases hd : isData a with
    | false =>
      obtain ⟨source, flags, rfl⟩ := isData_false a hd
      exact absurd rfl (h p source flags)
    | true =>
      cases a <;> simp_all [pendingAfter, List.foldl_append, isData, Value.isRegExp]

/-- The token at the position of a data value `v` that follows the
arguments `pre`. -/
theorem getMsg_at (pre post : List Value) (v : Value) (hv : isData v = true) :
    (getMsg (pre ++ v :: post)).output[(pre.filter isData).length]? = some v ∧
    read (getMsg (pre ++ v :: post)).type (pre.filter isData).length = some (typeTag v) ∧
    read (getMsg (pre ++ v :: post)).styles (pre.filter isData).length
      = pendingAfter none pre := by
  have ht := tokens_getMsg (pre ++ v :: post)
  rw [pairScan_append, pairScan_data _ v post hv] at ht
  have hk := congrArg (fun l => l[(pre.filter isData).length]?) ht
  simp only at hk
  rw [List.getElem?_append_right (by rw [pairScan_length]), pairScan_length, Nat.sub_self,
    tokens, tokensFrom_getElem?] at hk
  simp only [List.getElem?_cons_zero, Option.map_eq_some', Nat.zero_add] at hk
  obtain ⟨w, hw, he⟩ := hk
  injection he with h1 h2 h3
  subst h1
  exact ⟨hw, h2, h3⟩

/-! ## C1: the tokens of `getMsg` -/

/-- C1: for every argument list, the output of `getMsg` is exactly the
non-directive arguments in their original order; the token of a value carries
its type tag; and it carries a style list if and only if the argument
immediately before it is a directive, in which case the list is the one of
that directive. A directive therefore styles the value right after it and no
other token. -/
theorem getMsg_tokens_exact (args : List Value) :
    (getMsg args).output = args.filter isData ∧
    ∀ pre v post, args = pre ++ v :: post → isData v = true →
      (getMsg args).output[(pre.filter isData).length]? = some v ∧
      read (getMsg args).type (pre.filter isData).length = some (typeTag v) ∧
      (∀ p source flags, pre = p ++ [.regexp source flags] →
        read (getMsg args).styles (pre.filter isData).length
          = some (directiveStyles source flags)) ∧
      ((∀ p source flags, pre ≠ p ++ [.regexp source flags]) →
        read (getMsg args).styles (pre.filter isData).length = none) := by
  refine ⟨output_getMsg args, ?_⟩
  intro pre v post hargs hv
  subst hargs
  obtain ⟨h1, h2, h3⟩ := getMsg_at pre post v hv
  refine ⟨h1, h2, ?_, ?_⟩
  · intro p source flags hp
    rw [h3, hp, pendingAfter_concat_regexp]
  · intro hp
    rw [h3, pendingAfter_none pre hp]

/-- C1 at `log(/b/, "x", "y", /u/)`: `"x"` carries the styles of `/b/`,
`"y"` carries none, and the trailing directive gives no token. -/
theorem getMsg_tokens_exact_witness :
    (getMsg [.regexp "b" "", .string "x", .string "y", .regexp "u" ""]).output
        = [.string "x", .string "y"] ∧
    read (getMsg [.regexp "b" "", .string "x", .string "y", .regexp "u" ""]).styles 0
        = some ["b"] ∧
    read (getMsg [.regexp "b" "", .string "x", .string "y", .regexp "u" ""]).styles 1
        = none := by
  have h := getMsg_tokens_exact [.regexp "b" "", .string "x", .string "y", .regexp "u" ""]
  refine ⟨h.1, ?_, ?_⟩
  · exact (h.2 [.regexp "b" ""] (.string "x") [.string "y", .regexp "u" ""] rfl rfl).2.2.1
      [] "b" "" rfl
  · refine (h.2 [.regexp "b" "", .string "x"] (.string "y") [.regexp "u" ""] rfl rfl).2.2.2 ?_
    intro p source flags hp
    have := congrArg List.getLast? hp
    simp at this

/-! ## Directives: lemmas on `split` and on the body of a directive -/

theorem splitChars_of_not_mem (sep : Char) (w : List Char) (h : sep ∉ w) :
    splitChars sep w = [w] := by
  induction w with
  | nil => rfl
  | cons c cs ih =>
    have hc : c ≠ sep := fun e => h (by simp [e])
    have hcs : sep ∉ cs := fun e => h (by simp [e])
    simp [splitChars, hc, ih hcs]

theorem splitChars_append_sep (sep : Char) (w cs : List Char) (h : sep ∉ w) :
    splitChars sep (w ++ sep :: cs) = w :: splitChars sep cs := by
  induction w with
  | nil => simp [splitChars]
  | cons c w ih =>
    have hc : c ≠ sep := fun e => h (by simp [e])
    have hw : sep ∉ w := fun e => h (by simp [e])
    simp [splitChars, hc, ih hw]

theorem split_join (elems : List String) (hne : elems ≠ [])
    (h : ∀ e ∈ elems, ' ' ∉ e.data) : split (join " " elems) = elems := by
  induction elems with
  | nil => exact absurd rfl hne
  | cons x rest ih =>
    cases rest with
    | nil =>
      simp [join, split, splitChars_of_not_mem ' ' x.data (h x (by simp))]
    | cons y rest =>
      have hx : ' ' ∉ x.data := h x (by simp)
      have ih1 := ih (by simp) (fun e he => h e (by simp [he]))
      simp only [split] at ih1
      have hd : (x ++ " " ++ join " " (y :: rest)).data
          = x.data ++ ' ' :: (join " " (y :: rest)).data := by
        simp [String.data_append]
      simp only [join, split, hd, splitChars_append_sep ' ' x.data _ hx, List.map_cons, ih1]

theorem directiveBody_no_flags (source : String) : directiveBody source "" = source := by
  have h : ("/" ++ source ++ "/" ++ "").data = '/' :: (source.data ++ ['/']) := by
    simp [String.data_append]
  simp [directiveBody, h, List.dropLast_concat]

/-- The style list of a directive written as elements separated by single
spaces: the expansions of the elements, in order. -/
theorem directiveStyles_join (elems : List String) (hne : elems ≠ [])
    (h : ∀ e ∈ elems, ' ' ∉ e.data) :
    directiveStyles (join " " elems) "" = (elems.map expandElm).flatten := by
  rw [directiveStyles, directiveBody_no_flags, split_join elems hne h]

/-! ## The renderers: lemmas -/

theorem documented_cases (v : Value) (hdoc : typeTag v ∈ documentedTags)
    (hobj : typeTag v ≠ "object") :
    ∃ defaults text, termDefaults (typeTag v) = some defaults ∧ defaults ≠ [] ∧
      toStr v = .ok text := by
  cases v <;> simp_all [typeTag, typeOf, documentedTags, termDefaults, termDefaultsTable,
    List.lookup, toStr]

theorem termMapper_eq (arr : Msg) (i : Nat) (v : Value) (type text : String)
    (defaults : List String) (htype : read arr.type i = some type) (hobj : type ≠ "object")
    (hd : termDefaults type = some defaults) (ht : toStr v = .ok text) :
    termMapper v i arr = .ok (.string ("\x1b["
      ++ join ";" (defaults ++ ((read arr.styles i).getD []).map termCode)
      ++ "m" ++ text ++ "\x1b[0m")) := by
  unfold termMapper
  simp only [htype, Option.getD_some, hobj, if_false]
  cases hs : read arr.styles i with
  | none => simp [hd, addTermStyles, ht]
  | some styles => simp [hd, addTermStyles, ht]

theorem htmlMapper_eq (format : List Value → String) (arr : Msg) (i : Nat) (v : Value)
    (type text : String) (htype : read arr.type i = some type) (hobj : type ≠ "object")
    (ht : toStr v = .ok text) :
    htmlMapper format v i arr = .ok (.string ("<span "
      ++ join " " (("class=\"" ++ type ++ "\"") ::
          (match read arr.styles i with
           | some styles => ["style=\"" ++ join ";" (styles.map htmlFragment) ++ "\""]
           | none => []))
      ++ ">" ++ text ++ "</span>")) := by
  unfold htmlMapper
  simp only [htype, Option.getD_some, hobj, if_false]
  cases hs : read arr.styles i with
  | none => simp [htmlSpan, ht]
  | some styles => simp [htmlSpan, ht]

theorem htmlMapper_object (format : List Value → String) (arr : Msg) (i : Nat) (v : Value)
    (htype : read arr.type i = some "object") :
    htmlMapper format v i arr
      = .ok (.string ("<span class=\"object\">" ++ format [v] ++ "</span>")) := by
  unfold htmlMapper
  simp [htype, htmlSpan, toStr, join]

theorem termMapper_object (arr : Msg) (i : Nat) (v : Value)
    (htype : read arr.type i = some "object") : termMapper v i arr = .ok v := by
  unfold termMapper
  simp [htype]

theorem getMsg_single (v : Value) (hv : isData v = true) :
    getMsg [v] = ⟨[v], [], [some (typeTag v)]⟩ := by
  simp [getMsg, getMsgStep_data _ v hv, Scan.init, assign]

theorem getMsg_pair (source flags : String) (v : Value) (hv : isData v = true) :
    getMsg [.regexp source flags, v]
      = ⟨[v], [some (directiveStyles source flags)], [some (typeTag v)]⟩ := by
  have h1 : getMsgStep Scan.init (.regexp source flags)
      = ⟨0, [some (directiveStyles source flags)], [], []⟩ := rfl
  simp [getMsg, h1, getMsgStep_data _ v hv, assign]

theorem mapMsg_one {β : Type} (f : Value → Nat → Msg → Except Thrown β) (arr : Msg) (v : Value)
    (b : β) (hout : arr.output = [v]) (hf : f v 0 arr = .ok b) : mapMsg f arr = .ok [b] := by
  simp [mapMsg, hout, mapFrom, hf]

theorem lookup_objectPrototype_at (u : String) (cs : List Char) (h : u.data = '@' :: cs) :
    objectPrototype.lookup u = none := by
  have hk : ∀ p ∈ objectPrototype, p.1.data.head? ≠ some '@' := by decide
  rw [List.lookup_eq_none_iff]
  intro p hp
  have h1 := hk p hp
  simp only [bne_iff_ne, ne_eq]
  intro e
  apply h1
  rw [← e, h]
  rfl

/-- The entry an element that is in none of the tables adds to the list of
codes and to the list of CSS fragments. -/
theorem unknown_entry (u : String) (hterm : termMap.lookup u = none)
    (hhtml : htmlMap.lookup u = none) (hpre : presets u = none) :
    (expandElm u).map termCode = [(objectPrototype.lookup u).getD ""] ∧
    (expandElm u).map htmlFragment = [(objectPrototype.lookup u).getD ""] := by
  have e1 : termCode "" = "" := by decide
  have e2 : htmlFragment "" = "" := by decide
  have e3 : split "" = [""] := by decide
  unfold expandElm
  split
  · next cs hcs =>
    simp [hpre, e1, e2, e3, lookup_objectPrototype_at u cs hcs]
  · simp [termCode, htmlFragment, hterm, hhtml]

/-- The two renderings of a value that directly follows a directive. -/
theorem render_pair (format : List Value → String) (source flags : String) (v : Value)
    (defaults : List String) (text : String)
    (hd : termDefaults (typeTag v) = some defaults) (ht : toStr v = .ok text) :
    mapMsg termMapper (getMsg [.regexp source flags, v])
      = .ok [.string ("\x1b["
          ++ join ";" (defaults ++ (directiveStyles source flags).map termCode)
          ++ "m" ++ text ++ "\x1b[0m")] ∧
    mapMsg (htmlMapper format) (getMsg [.regexp source flags, v])
      = .ok [.string ("<span class=\"" ++ typeTag v ++ "\" style=\""
          ++ join ";" ((directiveStyles source flags).map htmlFragment)
          ++ "\">" ++ text ++ "</span>")] := by
  have hv : isData v = true := by
    cases v <;> simp_all [isData, Value.isRegExp, typeTag, typeOf, termDefaults,
      termDefaultsTable, List.lookup]
  have hobj : typeTag v ≠ "object" := by
    intro e
    rw [e] at hd
    simp [termDefaults, termDefaultsTable, List.lookup] at hd
  rw [getMsg_pair source flags v hv]
  constructor
  · apply mapMsg_one _ _ v _ rfl
    rw [termMapper_eq _ 0 v (typeTag v) text defaults (by simp [read]) hobj hd ht]
    simp [read]
  · apply mapMsg_one _ _ v _ rfl
    have e1 : "<span " ++ "class=\"" = "<span class=\"" := by decide
    have e2 : "\"" ++ " " ++ "style=\"" = "\" style=\"" := by decide
    have e3 : "\"" ++ ">" = "\">" := by decide
    rw [htmlMapper_eq format _ 0 v (typeTag v) text (by simp [read]) hobj ht]
    simp only [read, List.getElem?_cons_zero, Option.join, join, String.append_assoc]
    rw [← String.append_assoc "<span ", e1, ← String.append_assoc "\"" " ",
      ← String.append_assoc ("\"" ++ " "), e2, ← String.append_assoc "\"" ">", e3]

/-! ## C2: malformed directive elements -/

/-- C2, as stated, fails: after `/b foo/` (an unknown literal name) and after
`/b @nope/` (an unknown preset) the value `"x"` is rendered with one more
`;` than after `/b/`, in the terminal and in HTML. -/
theorem malformed_element_changes_rendering :
    mapMsg termMapper (getMsg [.regexp "b" "", .string "x"])
      = .ok [.string "\x1b[35;1mx\x1b[0m"] ∧
    mapMsg termMapper (getMsg [.regexp "b foo" "", .string "x"])
      = .ok [.string "\x1b[35;1;mx\x1b[0m"] ∧
    mapMsg termMapper (getMsg [.regexp "b @nope" "", .string "x"])
      = .ok [.string "\x1b[35;1;mx\x1b[0m"] ∧
    mapMsg termMapper (getMsg [.regexp "b foo" "", .string "x"])
      ≠ mapMsg termMapper (getMsg [.regexp "b" "", .string "x"]) ∧
    mapMsg (htmlMapper (fun _ => "")) (getMsg [.regexp "b @nope" "", .string "x"])
      ≠ mapMsg (htmlMapper (fun _ => "")) (getMsg [.regexp "b" "", .string "x"]) := by
  decide

/-- C2, amended: an element that is in none of the tables (an unknown
literal style name or an unknown preset reference) never raises an error, but
it is not without effect. In a directive written as elements separated by
single spaces, such an element `u` adds exactly one entry, at its position,
to the codes joined by `;` in the terminal rendering of the following value
and to the CSS fragments joined by `;` in its HTML rendering: the empty text,
or the text of the property when `u` names a property every object inherits. -/
theorem malformed_element_adds_entry (format : List Value → String) (xs ys : List String)
    (u : String) (v : Value) (defaults : List String) (text : String)
    (hne : xs ++ ys ≠ [])
    (hsp : ∀ e ∈ xs ++ u :: ys, ' ' ∉ e.data)
    (hterm : termMap.lookup u = none) (hhtml : htmlMap.lookup u = none)
    (hpre : presets u = none)
    (hd : termDefaults (typeTag v) = some defaults) (ht : toStr v = .ok text) :
    mapMsg termMapper (getMsg [.regexp (join " " (xs ++ ys)) "", v])
      = .ok [.string ("\x1b["
          ++ join ";" (defaults ++ ((xs.map expandElm).flatten.map termCode
              ++ (ys.map expandElm).flatten.map termCode))
          ++ "m" ++ text ++ "\x1b[0m")] ∧
    mapMsg termMapper (getMsg [.regexp (join " " (xs ++ u :: ys)) "", v])
      = .ok [.string ("\x1b["
          ++ join ";" (defaults ++ ((xs.map expandElm).flatten.map termCode
              ++ (objectPrototype.lookup u).getD "" :: (ys.map expandElm).flatten.map termCode))
          ++ "m" ++ text ++ "\x1b[0m")] ∧
    mapMsg (htmlMapper format) (getMsg [.regexp (join " " (xs ++ ys)) "", v])
      = .ok [.string ("<span class=\"" ++ typeTag v ++ "\" style=\""
          ++ join ";" ((xs.map expandElm).flatten.map htmlFragment
              ++ (ys.map expandElm).flatten.map htmlFragment)
          ++ "\">" ++ text ++ "</span>")] ∧
    mapMsg (htmlMapper format) (getMsg [.regexp (join " " (xs ++ u :: ys)) "", v])
      = .ok [.string ("<span class=\"" ++ typeTag v ++ "\" style=\""
          ++ join ";" ((xs.map expandElm).flatten.map htmlFragment
              ++ (objectPrototype.lookup u).getD "" :: (ys.map expandElm).flatten.map htmlFragment)
          ++ "\">" ++ text ++ "</span>")] := by
  have hsp0 : ∀ e ∈ xs ++ ys, ' ' ∉ e.data := by
    intro e he
    apply hsp e
    simp only [List.mem_append, List.mem_cons] at he ⊢
    tauto
  obtain ⟨hu1, hu2⟩ := unknown_entry u hterm hhtml hpre
  have h0 := render_pair format (join " " (xs ++ ys)) "" v defaults text hd ht
  have h1 := render_pair format (join " " (xs ++ u :: ys)) "" v defaults text hd ht
  rw [directiveStyles_join _ hne hsp0] at h0
  rw [directiveStyles_join _ (by simp) hsp] at h1
  simp only [List.map_append, List.flatten_append, List.map_cons, List.flatten_cons, hu1, hu2,
    List.singleton_append] at h0 h1
  exact ⟨h0.1, h1.1, h0.2, h1.2⟩

/-- C2 amended, at the directives `/b u/` and `/b foo u/` before `"x"`. -/
theorem malformed_element_adds_entry_witness :
    mapMsg termMapper (getMsg [.regexp "b foo u" "", .string "x"])
      = .ok [.string "\x1b[35;1;;4mx\x1b[0m"] ∧
    mapMsg (htmlMapper (fun _ => "")) (getMsg [.regexp "b foo u" "", .string "x"])
      = .ok [.string
          "<span class=\"string\" style=\"font-weight: bold;;text-decoration: underline\">x</span>"] := by
  have h := malformed_element_adds_entry (fun _ => "") ["b"] ["u"] "foo" (.string "x") ["35"] "x"
    (by decide) (by decide) (by decide) (by decide) (by decide) (by decide) (by decide)
  exact ⟨h.2.1, h.2.2.2⟩

/-! ## C3: preset expansion -/

/-- C3, as stated, fails twice: the preset `@!` expands to `["1"]`, and `1`
is a key of neither style table; a name that is not in the presets table,
such as `@nope`, expands to the one-element list `[""]`, not to the empty
list. -/
theorem expandElm_not_as_claimed :
    expandElm "@!" = ["1"] ∧ termMap.lookup "1" = none ∧ htmlMap.lookup "1" = none ∧
    presets "@nope" = none ∧ expandElm "@nope" = [""] ∧ expandElm "@nope" ≠ [] := by
  decide

/-- C3, amended: preset expansion never raises. The presets `@path`,
`@prefix` and `@ip` expand to non-empty lists whose elements are all keys of
the terminal and of the CSS style table, and every string that starts with
`@` and is not in the presets table expands to the one-element list `[""]`,
whose only element is the empty name. -/
theorem expandElm_presets :
    expandElm "@path" = ["u", "cyan"] ∧ expandElm "@prefix" = ["yellow"] ∧
    expandElm "@ip" = ["b"] ∧
    (∀ name ∈ ["@path", "@prefix", "@ip"], expandElm name ≠ [] ∧
      ∀ style ∈ expandElm name,
        (termMap.lookup style).isSome = true ∧ (htmlMap.lookup style).isSome = true) ∧
    (∀ (elm : String) (cs : List Char), elm.data = '@' :: cs → presets elm = none →
      expandElm elm = [""]) := by
  refine ⟨by decide, by decide, by decide, by decide, ?_⟩
  intro elm cs hcs hnone
  have e : split "" = [""] := by decide
  simp [expandElm, hcs, hnone, e]

/-- C3 amended, at the unknown preset `@nope`. -/
theorem expandElm_presets_witness : expandElm "@nope" = [""] :=
  expandElm_presets.2.2.2.2 "@nope" _ rfl (by decide)

/-! ## C4: the terminal rendering of a value that is not an object -/

/-- C4: for a token whose type tag is one of the documented tags other than
`object`, `termMapper` returns ESC[ followed by the codes of the type default
and then the codes of the custom styles, joined by `;`, then `m`, the value
and ESC[0m. Without a directive only the default is applied, and the defaults
are number 33, boolean 33, null 1, undefined 90, function 36, string 35. The
code of a style that is a key of `termMap` is its number. -/
theorem termMapper_default_then_custom (arr : Msg) (i : Nat) (v : Value)
    (hdoc : typeTag v ∈ documentedTags) (hobj : typeTag v ≠ "object")
    (htype : read arr.type i = some (typeTag v)) :
    (∃ defaults text, termDefaults (typeTag v) = some defaults ∧ toStr v = .ok text ∧
      termMapper v i arr = .ok (.string ("\x1b["
        ++ join ";" (defaults ++ ((read arr.styles i).getD []).map termCode)
        ++ "m" ++ text ++ "\x1b[0m")) ∧
      (read arr.styles i = none →
        termMapper v i arr
          = .ok (.string ("\x1b[" ++ join ";" defaults ++ "m" ++ text ++ "\x1b[0m")))) ∧
    (termDefaults "number" = some ["33"] ∧ termDefaults "boolean" = some ["33"] ∧
      termDefaults "null" = some ["1"] ∧ termDefaults "undefined" = some ["90"] ∧
      termDefaults "function" = some ["36"] ∧ termDefaults "string" = some ["35"]) ∧
    (∀ style code, termMap.lookup style = some code → termCode style = toString code) := by
  obtain ⟨defaults, text, hd, _, ht⟩ := documented_cases v hdoc hobj
  have h := termMapper_eq arr i v (typeTag v) text defaults htype hobj hd ht
  refine ⟨⟨defaults, text, hd, ht, h, ?_⟩, by decide, ?_⟩
  · intro hnone
    rw [h, hnone]
    simp
  · intro style code hc
    simp [termCode, hc]

/-- C4 at the token of `log(/@path/, "/tmp/x.json")`. -/
theorem termMapper_default_then_custom_witness :
    termMapper (.string "/tmp/x.json") 0 (getMsg [.regexp "@path" "", .string "/tmp/x.json"])
      = .ok (.string "\x1b[35;4;36m/tmp/x.json\x1b[0m") := by
  obtain ⟨defaults, text, hd, ht, h, _⟩ :=
    (termMapper_default_then_custom (getMsg [.regexp "@path" "", .string "/tmp/x.json"]) 0
      (.string "/tmp/x.json") (by decide) (by decide) (by decide)).1
  have e1 : defaults = ["35"] := Option.some.inj (hd.symm.trans (by decide))
  have e2 : text = "/tmp/x.json" := (Except.ok.inj (ht.symm.trans rfl))
  rw [h, e1, e2]
  decide

/-! ## C5: the HTML rendering of a value without a directive -/

/-- C5: for a token with no directive whose type tag is one of the
documented tags, `htmlMapper` emits a span with the attribute `class` equal
to the type tag and no `style` attribute, whatever the tag; for a tag other
than `object` the terminal renderer, in contrast, applies the non-empty type
default. -/
theorem htmlMapper_no_directive (format : List Value → String) (arr : Msg) (i : Nat)
    (v : Value) (hdoc : typeTag v ∈ documentedTags)
    (htype : read arr.type i = some (typeTag v)) (hnone : read arr.styles i = none) :
    (typeTag v = "object" →
      htmlMapper format v i arr
        = .ok (.string ("<span class=\"object\">" ++ format [v] ++ "</span>"))) ∧
    (typeTag v ≠ "object" →
      ∃ defaults text, toStr v = .ok text ∧ termDefaults (typeTag v) = some defaults ∧
        defaults ≠ [] ∧
        htmlMapper format v i arr
          = .ok (.string ("<span class=\"" ++ typeTag v ++ "\">" ++ text ++ "</span>")) ∧
        termMapper v i arr
          = .ok (.string ("\x1b[" ++ join ";" defaults ++ "m" ++ text ++ "\x1b[0m"))) := by
  constructor
  · intro hobj
    rw [hobj] at htype
    exact htmlMapper_object format arr i v htype
  · intro hobj
    obtain ⟨defaults, text, hd, hne, ht⟩ := documented_cases v hdoc hobj
    refine ⟨defaults, text, ht, hd, hne, ?_, ?_⟩
    · have e1 : "<span " ++ "class=\"" = "<span class=\"" := by decide
      have e3 : "\"" ++ ">" = "\">" := by decide
      rw [htmlMapper_eq format arr i v (typeTag v) text htype hobj ht, hnone]
      simp only [join, String.append_assoc]
      rw [← String.append_assoc "<span ", e1, ← String.append_assoc "\"" ">", e3]
    · rw [termMapper_eq arr i v (typeTag v) text defaults htype hobj hd ht, hnone]
      simp

/-- C5 at the second token of `log("Hello", 42)`. -/
theorem htmlMapper_no_directive_witness :
    htmlMapper (fun _ => "") (.number "42") 1 (getMsg [.string "Hello", .number "42"])
      = .ok (.string "<span class=\"number\">42</span>") := by
  obtain ⟨defaults, text, ht, _, _, h, _⟩ :=
    (htmlMapper_no_directive (fun _ => "") (getMsg [.string "Hello", .number "42"]) 1
      (.number "42") (by decide) (by decide) (by decide)).2 (by decide)
  have e2 : text = "42" := (Except.ok.inj (ht.symm.trans rfl))
  rw [h, e2]
  decide

/-! ## C6: objects are never styled -/

/-- C6: for a token whose type tag is `object`, whatever its entry in
`styles`, `termMapper` returns the value itself, with no escape sequence, and
`htmlMapper` emits a span that has the `class` attribute only; so it is for
an object that directly follows any directive. -/
theorem object_never_styled (format : List Value → String) (arr : Msg) (i : Nat) (v : Value)
    (htype : read arr.type i = some "object") :
    termMapper v i arr = .ok v ∧
    htmlMapper format v i arr
      = .ok (.string ("<span class=\"object\">" ++ format [v] ++ "</span>")) ∧
    (∀ source flags text,
      mapMsg termMapper (getMsg [.regexp source flags, .object text]) = .ok [.object text] ∧
      mapMsg (htmlMapper format) (getMsg [.regexp source flags, .object text])
        = .ok [.string ("<span class=\"object\">" ++ format [.object text] ++ "</span>")]) := by
  refine ⟨termMapper_object arr i v htype, htmlMapper_object format arr i v htype, ?_⟩
  intro source flags text
  rw [getMsg_pair source flags (.object text) rfl]
  constructor
  · exact mapMsg_one _ _ _ _ rfl (termMapper_object _ 0 _ rfl)
  · exact mapMsg_one _ _ _ _ rfl (htmlMapper_object format _ 0 _ rfl)

/-- C6 at the token of `log(/red b/, obj)`. -/
theorem object_never_styled_witness :
    termMapper (.object "[object Object]") 0
        (getMsg [.regexp "red b" "", .object "[object Object]"])
      = .ok (.object "[object Object]") ∧
    htmlMapper (fun _ => "obj") (.object "[object Object]") 0
        (getMsg [.regexp "red b" "", .object "[object Object]"])
      = .ok (.string "<span class=\"object\">obj</span>") := by
  have h := object_never_styled (fun _ => "obj")
    (getMsg [.regexp "red b" "", .object "[object Object]"]) 0 (.object "[object Object]")
    (by decide)
  exact ⟨h.1, h.2.1⟩

/-! ## C7: the label of `log.err` -/

/-- C7, as stated, fails on the text of the label: the first token of
`log.err()` is the string `ERROR:`, with a colon, not `ERROR`. -/
theorem errArgs_label_not_ERROR :
    (tokens (getMsg (errArgs []))).head?
      = some ⟨.string "ERROR:", some "string", some ["red", "b", "u"]⟩ ∧
    (tokens (getMsg (errArgs []))).head?
      ≠ some ⟨.string "ERROR", some "string", some ["red", "b", "u"]⟩ := by
  decide

/-- C7, amended: for every argument list given to `log.err`, the message
`display` works on has as its first token the string `ERROR:` (with the
colon) carrying the styles red, b, u, and the remaining tokens are exactly the
tokens `getMsg` produces for the caller's arguments, in order and with their
own types and styles; the message `display` returns is that message. -/
theorem logErr_tokens (args : List Value) :
    tokens (getMsg (errArgs args))
      = ⟨.string "ERROR:", some "string", some ["red", "b", "u"]⟩ :: tokens (getMsg args) ∧
    ∀ (env : Env) (thisPrefix : Option String) (s s1 : Sinks) (msg : Msg),
      display env thisPrefix (errArgs args) s = (.ok msg, s1) → msg = getMsg (errArgs args) := by
  constructor
  · rw [tokens_getMsg, tokens_getMsg]
    have e : directiveStyles "red b u" "" = ["red", "b", "u"] := by decide
    simp [errArgs, pairScan, e, typeTag, typeOf]
  · intro env thisPrefix s s1 msg h
    unfold display at h
    simp only at h
    split at h
    · simp at h
    · split at h
      · simp at h
      · split at h
        · simp at h
        · simp only [Prod.mk.injEq, Except.ok.injEq] at h
          exact h.1.symm

/-- C7 amended, at `log.err("disk full")` on a terminal. -/
theorem logErr_tokens_witness :
    (display ⟨true, fun _ => "", []⟩ none (errArgs [.string "disk full"]) Sinks.empty).1
      = .ok (getMsg (errArgs [.string "disk full"])) ∧
    tokens (getMsg (errArgs [.string "disk full"]))
      = [⟨.string "ERROR:", some "string", some ["red", "b", "u"]⟩,
         ⟨.string "disk full", some "string", none⟩] := by
  refine ⟨by decide, ?_⟩
  rw [(logErr_tokens [.string "disk full"]).1]
  decide

/-! ## C8: the type tag of a value -/

/-- C8 fails at `log(Symbol("x"))` and at `log(1n)`: the tags are `symbol`
and `bigint`, which are none of the seven documented tags and have no entry
in `termDefaults`, so `termMapper` throws and, on a terminal, `display` throws
before it has written to any sink. -/
theorem undocumented_tag_throws :
    (getMsg [.symbol "x"]).type = [some "symbol"] ∧ "symbol" ∉ documentedTags ∧
    mapMsg termMapper (getMsg [.symbol "x"]) = .error .typeError ∧
    (getMsg [.bigint 1]).type = [some "bigint"] ∧ "bigint" ∉ documentedTags ∧
    mapMsg termMapper (getMsg [.bigint 1]) = .error .typeError ∧
    display ⟨true, fun _ => "", []⟩ none [.symbol "x"] Sinks.empty
      = (.error .typeError, Sinks.empty) := by
  decide

/-! ## C9: the prefix on the console -/

/-- C9 fails at a call with `this.prefix = "conf"` and the argument `"x"`
when the output is not a terminal: the value is passed on unchanged, but the
prefix is given to `console.log` with its escape sequence all the same. -/
theorem prefix_styled_without_tty :
    consoleArgs false (prefixArray (some "conf")) (getMsg [.string "x"])
      = .ok [.string "\x1b[35;32;1;4mconf\x1b[0m", .string "x"] ∧
    (display ⟨false, fun _ => "", []⟩ (some "conf") [.string "x"] Sinks.empty).2.console
      = [[.string "\x1b[35;32;1;4mconf\x1b[0m", .string "x"]] := by
  decide

/-! ## The fan-out: lemmas -/

theorem mapFrom_ok {β : Type} (f : Value → Nat → Msg → Except Thrown β) (arr : Msg)
    (P : β → Prop) (vs : List Value) (i : Nat)
    (h : ∀ k v, vs[k]? = some v → ∃ b, f v (i + k) arr = .ok b ∧ P b) :
    ∃ bs, mapFrom f arr vs i = .ok bs ∧ ∀ b ∈ bs, P b := by
  induction vs generalizing i with
  | nil => exact ⟨[], rfl, by simp⟩
  | cons v vs ih =>
    obtain ⟨b, hb, hP⟩ := h 0 v (by simp)
    obtain ⟨bs, hbs, hPs⟩ := ih (i + 1) (fun k w hk => by
      have := h (k + 1) w (by simpa using hk)
      rwa [show i + (k + 1) = i + 1 + k by omega] at this)
    refine ⟨b :: bs, ?_, ?_⟩
    · simp only [mapFrom]
      rw [Nat.add_zero] at hb
      rw [hb, hbs]
    · intro c hc
      rcases List.mem_cons.1 hc with rfl | hc
      · exact hP
      · exact hPs c hc

theorem pairScan_mem (pending : Option (List String)) (args : List Value) (t : Token)
    (ht : t ∈ pairScan pending args) : t.type = some (typeTag t.value) ∧ t.value ∈ args := by
  induction args generalizing pending with
  | nil => simp [pairScan] at ht
  | cons a rest ih =>
    cases hd : isData a with
    | false =>
      obtain ⟨source, flags, rfl⟩ := isData_false a hd
      simp only [pairScan] at ht
      obtain ⟨h1, h2⟩ := ih _ ht
      exact ⟨h1, List.mem_cons_of_mem _ h2⟩
    | true =>
      rw [pairScan_data _ a rest hd] at ht
      rcases List.mem_cons.1 ht with rfl | ht
      · exact ⟨rfl, List.mem_cons_self _ _⟩
      · obtain ⟨h1, h2⟩ := ih _ ht
        exact ⟨h1, List.mem_cons_of_mem _ h2⟩

/-- Every value of `output` is an argument and has its tag in `type`. -/
theorem getMsg_type_at (args : List Value) (k : Nat) (v : Value)
    (hk : (getMsg args).output[k]? = some v) :
    read (getMsg args).type k = some (typeTag v) ∧ v ∈ args := by
  have h1 : (tokens (getMsg args))[k]?
      = some ⟨v, read (getMsg args).type k, read (getMsg args).styles k⟩ := by
    rw [tokens, tokensFrom_getElem?, hk]
    simp
  have h2 := List.getElem?_mem h1
  rw [tokens_getMsg] at h2
  exact pairScan_mem _ _ _ h2

theorem termMapper_ok (arr : Msg) (i : Nat) (v : Value)
    (htype : read arr.type i = some (typeTag v)) (hdoc : typeTag v ∈ documentedTags) :
    ∃ b, termMapper v i arr = .ok b := by
  by_cases hobj : typeTag v = "object"
  · rw [hobj] at htype
    exact ⟨v, termMapper_object arr i v htype⟩
  · obtain ⟨defaults, text, hd, _, ht⟩ := documented_cases v hdoc hobj
    exact ⟨_, termMapper_eq arr i v (typeTag v) text defaults htype hobj hd ht⟩

theorem htmlMapper_ok (format : List Value → String) (arr : Msg) (i : Nat) (v : Value)
    (htype : read arr.type i = some (typeTag v)) (hdoc : typeTag v ∈ documentedTags) :
    ∃ b, htmlMapper format v i arr = .ok b ∧ ∃ text, b = .string text := by
  by_cases hobj : typeTag v = "object"
  · rw [hobj] at htype
    exact ⟨_, htmlMapper_object format arr i v htype, _, rfl⟩
  · obtain ⟨defaults, text, _, _, ht⟩ := documented_cases v hdoc hobj
    exact ⟨_, htmlMapper_eq format arr i v (typeTag v) text htype hobj ht, _, rfl⟩

theorem joinValues_strings (sep : String) (bs : List Value)
    (h : ∀ b ∈ bs, ∃ text, b = Value.string text) : ∃ inner, joinValues sep bs = .ok inner := by
  have h1 : ∃ texts, mapThrow joinItem bs = .ok texts := by
    induction bs with
    | nil => exact ⟨[], rfl⟩
    | cons b bs ih =>
      obtain ⟨text, rfl⟩ := h b (by simp)
      obtain ⟨texts, ht⟩ := ih (fun c hc => h c (by simp [hc]))
      exact ⟨text :: texts, by simp [mapThrow, joinItem, toStr, ht]⟩
  obtain ⟨texts, ht⟩ := h1
  exact ⟨join sep texts, by simp [joinValues, ht]⟩

/-- The rendering of a prefix for the console: always the escape sequence
of the string default followed by green, bold and underline. -/
theorem prefixTermMapper_string (name : String) :
    prefixTermMapper (.string name)
      = .ok (.string ("\x1b[35;32;1;4m" ++ name ++ "\x1b[0m")) := by
  have h := (render_pair (fun _ => "") "green b u" "" (.string name) ["35"] name
    rfl rfl).1
  have e : join ";" (["35"] ++ (directiveStyles "green b u" "").map termCode)
      = "35;32;1;4" := by decide
  have e2 : "\x1b[" ++ "35;32;1;4" ++ "m" = "\x1b[35;32;1;4m" := by decide
  rw [e, e2] at h
  simp [prefixTermMapper, h, joinValues, mapThrow, joinItem, toStr, join]

/-- Off a terminal the values go to `console.log` unchanged, but a prefix is
still given its escape sequence: line 39 of log.js does not look at `tty`. -/
theorem consoleArgs_not_tty (name : String) (hname : name ≠ "") (msg : Msg) :
    consoleArgs false (prefixArray (some name)) msg
      = .ok (.string ("\x1b[35;32;1;4m" ++ name ++ "\x1b[0m") :: msg.output) := by
  simp [consoleArgs, prefixArray, hname, mapThrow, prefixTermMapper_string]

theorem consoleArgs_ok (tty : Bool) (thisPrefix : Option String) (args : List Value)
    (hdoc : ∀ v ∈ args, typeTag v ∈ documentedTags) :
    ∃ shown, consoleArgs tty (prefixArray thisPrefix) (getMsg args) = .ok shown := by
  have h1 : ∃ names, mapThrow (fun name => prefixTermMapper (.string name))
      (prefixArray thisPrefix) = .ok names := by
    unfold prefixArray
    split
    · split
      · exact ⟨[], rfl⟩
      · simp only [mapThrow, prefixTermMapper_string]
        exact ⟨_, rfl⟩
    · exact ⟨[], rfl⟩
  obtain ⟨names, hn⟩ := h1
  cases tty with
  | false =>
    simp only [consoleArgs, hn, Bool.false_eq_true, if_false]
    exact ⟨_, rfl⟩
  | true =>
    obtain ⟨bs, hbs, _⟩ := mapFrom_ok termMapper (getMsg args) (fun _ => True)
      (getMsg args).output 0 (fun k v hk => by
        obtain ⟨h2, h3⟩ := getMsg_type_at args k v hk
        obtain ⟨b, hb⟩ := termMapper_ok (getMsg args) k v h2 (hdoc v h3)
        exact ⟨b, by simpa using hb, trivial⟩)
    simp only [consoleArgs, hn, mapMsg, hbs, if_true]
    exact ⟨_, rfl⟩

theorem htmlPara_ok (format : List Value → String) (names : List String) (args : List Value)
    (hdoc : ∀ v ∈ args, typeTag v ∈ documentedTags) :
    ∃ para, htmlPara format names (getMsg args) = .ok para := by
  obtain ⟨bs, hbs, hstr⟩ := mapFrom_ok (htmlMapper format) (getMsg args)
    (fun b => ∃ text, b = Value.string text) (getMsg args).output 0 (fun k v hk => by
      obtain ⟨h2, h3⟩ := getMsg_type_at args k v hk
      obtain ⟨b, hb, ht⟩ := htmlMapper_ok format (getMsg args) k v h2 (hdoc v h3)
      exact ⟨b, by simpa using hb, ht⟩)
  obtain ⟨inner, hi⟩ := joinValues_strings " " bs hstr
  simp only [htmlPara, mapMsg, hbs, hi]
  exact ⟨_, rfl⟩

/-- The loop over the subscribers: it calls an initial part of them in
order, all of them when it returns, and it returns when none throws. It
touches no other sink. -/
theorem notify_spec (para : String) (ls : List Listener) (i : Nat) (s : Sinks) :
    ∃ n, n ≤ ls.length ∧
      (notify para ls i s).2
        = { s with delivered := s.delivered ++ (List.range' i n).map (fun k => (k, para)) } ∧
      ((notify para ls i s).1 = .ok () → n = ls.length) ∧
      ((∀ callback ∈ ls, callback para = .ok ()) → (notify para ls i s).1 = .ok ()) := by
  induction ls generalizing i s with
  | nil => exact ⟨0, by simp [notify]⟩
  | cons callback rest ih =>
    cases hc : callback para with
    | error e =>
      refine ⟨1, by simp, by simp [notify, hc], ?_, ?_⟩
      · simp [notify, hc]
      · intro h
        have := h callback (by simp)
        rw [hc] at this
        cases this
    | ok u =>
      obtain ⟨n, hn, h1, h2, h3⟩ :=
        ih (i + 1) { s with delivered := s.delivered ++ [(i, para)] }
      refine ⟨n + 1, by simp [hn], ?_, ?_, ?_⟩
      · simp only [notify, hc, h1, List.range'_succ, List.map_cons, List.append_assoc,
          List.singleton_append]
      · intro h
        simp only [notify, hc] at h
        simp [h2 h]
      · intro h
        simp only [notify, hc]
        exact h3 (fun c hcm => h c (by simp [hcm]))

/-- What a call of `display` that returns has done to the message store
and to the subscribers. -/
theorem display_ok (env : Env) (thisPrefix : Option String) (args : List Value)
    (s s1 : Sinks) (msg : Msg) (h : display env thisPrefix args s = (.ok msg, s1)) :
    ∃ para, htmlPara env.format (prefixArray thisPrefix) (getMsg args) = .ok para ∧
      s1.db = s.db ++ [para] ∧
      s1.delivered
        = s.delivered ++ (List.range env.listeners.length).map (fun k => (k, para)) := by
  unfold display at h
  simp only at h
  cases hc : consoleArgs env.tty (prefixArray thisPrefix) (getMsg args) with
  | error e =>
    rw [hc] at h
    simp at h
  | ok shown =>
    cases hp : htmlPara env.format (prefixArray thisPrefix) (getMsg args) with
    | error e =>
      rw [hc, hp] at h
      simp at h
    | ok para =>
      rw [hc, hp] at h
      simp only at h
      obtain ⟨n, _, h1, h2, _⟩ := notify_spec para env.listeners 0
        { s with
          console := s.console ++ [shown]
          logFile := s.logFile ++ [fileText env.format (prefixArray thisPrefix) (getMsg args)]
          db := s.db ++ [para] }
      split at h
      · simp at h
      · next u s4 hn =>
        simp only [Prod.mk.injEq, Except.ok.injEq] at h
        rw [hn] at h1 h2
        simp only at h1
        have hlen := h2 rfl
        subst hlen
        rw [← h.2, h1]
        exact ⟨para, rfl, rfl, by simp [List.range_eq_range']⟩

/-- A call of `display` never changes an earlier entry of the message
store and appends at most one. -/
theorem display_db (env : Env) (thisPrefix : Option String) (args : List Value) (s : Sinks) :
    (display env thisPrefix args s).2.db = s.db ∨
    ∃ para, (display env thisPrefix args s).2.db = s.db ++ [para] := by
  unfold display
  simp only
  cases hc : consoleArgs env.tty (prefixArray thisPrefix) (getMsg args) with
  | error e => exact Or.inl rfl
  | ok shown =>
    cases hp : htmlPara env.format (prefixArray thisPrefix) (getMsg args) with
    | error e => exact Or.inl rfl
    | ok para =>
      obtain ⟨n, _, h1, _, _⟩ := notify_spec para env.listeners 0
        { s with
          console := s.console ++ [shown]
          logFile := s.logFile ++ [fileText env.format (prefixArray thisPrefix) (getMsg args)]
          db := s.db ++ [para] }
      refine Or.inr ⟨para, ?_⟩
      simp only
      split
      · next e s4 hn =>
        rw [hn] at h1
        simp only at h1
        rw [h1]
      · next u s4 hn =>
        rw [hn] at h1
        simp only at h1
        rw [h1]

/-- Whether the loop over the subscribers returns or throws does not depend
on the sinks or on the index it starts from. -/
theorem notify_fst (para : String) (ls : List Listener) (i j : Nat) (s t : Sinks) :
    (notify para ls i s).1 = (notify para ls j t).1 := by
  induction ls generalizing i j s t with
  | nil => rfl
  | cons callback rest ih =>
    simp only [notify]
    cases callback para with
    | error e => rfl
    | ok u => exact ih _ _ _ _

/-- Whether a call of `display` returns or throws, and what it returns, does
not depend on the sinks. -/
theorem display_fst (env : Env) (thisPrefix : Option String) (args : List Value)
    (s t : Sinks) :
    (display env thisPrefix args s).1 = (display env thisPrefix args t).1 := by
  unfold display
  simp only
  cases consoleArgs env.tty (prefixArray thisPrefix) (getMsg args) with
  | error e => rfl
  | ok shown =>
    cases htmlPara env.format (prefixArray thisPrefix) (getMsg args) with
    | error e => rfl
    | ok para =>
      simp only
      have h := notify_fst para env.listeners 0 0
        { s with
          console := s.console ++ [shown]
          logFile := s.logFile ++ [fileText env.format (prefixArray thisPrefix) (getMsg args)]
          db := s.db ++ [para] }
        { t with
          console := t.console ++ [shown]
          logFile := t.logFile ++ [fileText env.format (prefixArray thisPrefix) (getMsg args)]
          db := t.db ++ [para] }
      revert h
      generalize notify para env.listeners 0 _ = r1
      generalize notify para env.listeners 0 _ = r2
      intro h
      obtain ⟨o1, s4⟩ := r1
      obtain ⟨o2, t4⟩ := r2
      simp only at h
      subst h
      cases o1 <;> rfl

/-- A sequence of calls of `display` that all return: the message store
gets one fragment per call, in call order, and each fragment goes to every
subscriber in registration order. -/
theorem displayAll_spec (env : Env) (calls : List (Option String × List Value)) (s : Sinks)
    (hret : ∀ call ∈ calls, ∀ s0, ∃ msg, (display env call.1 call.2 s0).1 = .ok msg) :
    (displayAll env calls s).db = s.db ++ calls.map (paraOf env) ∧
    (displayAll env calls s).delivered
      = s.delivered ++ (calls.map (fun call =>
          (List.range env.listeners.length).map (fun k => (k, paraOf env call)))).flatten := by
  induction calls generalizing s with
  | nil => simp [displayAll]
  | cons call rest ih =>
    obtain ⟨msg, hm⟩ := hret call (by simp) s
    have h1 : display env call.1 call.2 s = (.ok msg, (display env call.1 call.2 s).2) :=
      Prod.ext hm rfl
    obtain ⟨para, hp, hdb, hdel⟩ := display_ok env call.1 call.2 s _ msg h1
    have hpo : paraOf env call = para := by simp [paraOf, hp]
    obtain ⟨i1, i2⟩ := ih (display env call.1 call.2 s).2 (fun c hc => hret c (by simp [hc]))
    have hstep : displayAll env (call :: rest) s
        = displayAll env rest (display env call.1 call.2 s).2 := by
      simp [displayAll]
    subst hpo
    rw [hstep, i1, i2, hdb, hdel]
    simp

/-! ## C10: the message store and the subscribers -/

/-- C10, as stated, fails: off a terminal the call `log(Symbol("x"))` writes
to the console and to the log file and then throws while the HTML fragment
is built, so it appends nothing to the message store. -/
theorem display_can_skip_append :
    display ⟨false, fun _ => "", []⟩ none [.symbol "x"] Sinks.empty
      = (.error .typeError,
          { Sinks.empty with console := [[.symbol "x"]], logFile := [""] }) ∧
    (display ⟨false, fun _ => "", []⟩ none [.symbol "x"] Sinks.empty).2.db = [] := by
  decide

/-- C10, amended: every call of `display` that returns (from `log` or from
`log.err`) has appended exactly one HTML fragment to the message store,
leaving all earlier entries unchanged and in order, and has then passed that
fragment to every subscriber once, in registration order; so N calls that
return yield exactly N entries in call order. No call, returning or not,
changes an earlier entry or appends more than one, and `log` and `log.err`
leave the store as their call of `display` leaves it. -/
theorem display_appends_one (env : Env) (s : Sinks) :
    (∀ thisPrefix args msg s1, display env thisPrefix args s = (.ok msg, s1) →
      ∃ para, htmlPara env.format (prefixArray thisPrefix) (getMsg args) = .ok para ∧
        s1.db = s.db ++ [para] ∧
        s1.delivered
          = s.delivered ++ (List.range env.listeners.length).map (fun k => (k, para))) ∧
    (∀ thisPrefix args, (display env thisPrefix args s).2.db = s.db ∨
      ∃ para, (display env thisPrefix args s).2.db = s.db ++ [para]) ∧
    (∀ calls : List (Option String × List Value),
      (∀ call ∈ calls, ∀ s0, ∃ msg, (display env call.1 call.2 s0).1 = .ok msg) →
      (displayAll env calls s).db = s.db ++ calls.map (paraOf env) ∧
      ((displayAll env calls s).db).length = s.db.length + calls.length ∧
      (displayAll env calls s).delivered
        = s.delivered ++ (calls.map (fun call =>
            (List.range env.listeners.length).map (fun k => (k, paraOf env call)))).flatten) ∧
    (∀ thisPrefix args, (log env thisPrefix args s).2.db = (display env thisPrefix args s).2.db ∧
      (logErr env thisPrefix args s).2.db
        = (display env thisPrefix (errArgs args) s).2.db) := by
  refine ⟨fun thisPrefix args msg s1 h => display_ok env thisPrefix args s s1 msg h,
    fun thisPrefix args => display_db env thisPrefix args s, ?_, ?_⟩
  · intro calls hret
    obtain ⟨h1, h2⟩ := displayAll_spec env calls s hret
    exact ⟨h1, by simp [h1], h2⟩
  · intro thisPrefix args
    constructor
    · unfold log
      split <;> simp_all
    · unfold logErr
      split <;> simp_all

/-- C10 amended, at two calls that return, `log("a")` and then
`log.err("b")` from a caller whose prefix is `conf`: the store gets their two
fragments in call order. -/
theorem display_appends_one_witness :
    (displayAll ⟨true, fun _ => "", []⟩
        [(none, [.string "a"]), (some "conf", errArgs [.string "b"])] Sinks.empty).db
      = ["<div><span class=\"string\">a</span></div>",
         "<div data-name=\"conf\" class=\"conf\"><span class=\"string\" style=\"color: red;font-weight: bold;text-decoration: underline\">ERROR:</span> <span class=\"string\">b</span></div>"] := by
  have hret : ∀ call ∈ [((none : Option String), [Value.string "a"]),
      (some "conf", errArgs [.string "b"])],
      ∀ s0, ∃ msg, (display ⟨true, fun _ => "", []⟩ call.1 call.2 s0).1 = .ok msg := by
    intro call hc s0
    rw [display_fst _ _ _ s0 Sinks.empty]
    simp only [List.mem_cons, List.mem_singleton, List.not_mem_nil, or_false] at hc
    rcases hc with rfl | rfl
    · exact ⟨getMsg [.string "a"], by decide⟩
    · exact ⟨getMsg (errArgs [.string "b"]), by decide⟩
  rw [((display_appends_one ⟨true, fun _ => "", []⟩ Sinks.empty).2.2.1
    [(none, [.string "a"]), (some "conf", errArgs [.string "b"])] hret).1]
  decide

/-! ## C12: two directives in a row -/

/-- C12: when two directives stand next to each other before a value, the
value's style list is exactly the expansion of the second one; the first
contributes nothing, to this token or to any other: the tokens are those of
the argument list without the first directive. -/
theorem second_directive_replaces_first (pre post : List Value) (source1 flags1 source2
    flags2 : String) (v : Value) (hv : isData v = true) :
    (getMsg (pre ++ .regexp source1 flags1 :: .regexp source2 flags2 :: v :: post)).output[
        (pre.filter isData).length]? = some v ∧
    read (getMsg (pre ++ .regexp source1 flags1 :: .regexp source2 flags2 :: v :: post)).styles
        (pre.filter isData).length = some (directiveStyles source2 flags2) ∧
    ∀ rest,
      tokens (getMsg (pre ++ .regexp source1 flags1 :: .regexp source2 flags2 :: rest))
        = tokens (getMsg (pre ++ .regexp source2 flags2 :: rest)) := by
  have hpre : pre ++ .regexp source1 flags1 :: .regexp source2 flags2 :: v :: post
      = ((pre ++ [.regexp source1 flags1]) ++ [.regexp source2 flags2]) ++ v :: post := by
    simp
  have hlen : (List.filter isData
      ((pre ++ [Value.regexp source1 flags1]) ++ [Value.regexp source2 flags2])).length
      = (pre.filter isData).length := by
    simp [List.filter_append, isData, Value.isRegExp]
  obtain ⟨h1, _, h3⟩ := getMsg_at
    ((pre ++ [.regexp source1 flags1]) ++ [.regexp source2 flags2]) post v hv
  rw [hlen, ← hpre] at h1 h3
  refine ⟨h1, ?_, ?_⟩
  · rw [h3, pendingAfter_concat_regexp]
  · intro rest
    rw [tokens_getMsg, tokens_getMsg, pairScan_append, pairScan_append]
    simp only [pairScan]

/-- C12 at `log(/red/, /b/, "x")`: the styles of `"x"` are `b` alone. -/
theorem second_directive_replaces_first_witness :
    read (getMsg [.regexp "red" "", .regexp "b" "", .string "x"]).styles 0 = some ["b"] :=
  (second_directive_replaces_first [] [] "red" "" "b" "" (.string "x") rfl).2.1

/-! ## C13: a directive at the end -/

/-- C13: appending a directive to an argument list changes no token:
`getMsg` yields the same values, the same type tags and, token by token, the
same style lists. -/
theorem trailing_directive_dropped (args : List Value) (source flags : String) :
    (getMsg (args ++ [.regexp source flags])).output = (getMsg args).output ∧
    (getMsg (args ++ [.regexp source flags])).type = (getMsg args).type ∧
    tokens (getMsg (args ++ [.regexp source flags])) = tokens (getMsg args) := by
  refine ⟨?_, ?_, ?_⟩
  · simp [getMsg, List.foldl_append, getMsgStep]
  · simp [getMsg, List.foldl_append, getMsgStep]
  · rw [tokens_getMsg, tokens_getMsg, pairScan_append]
    simp [pairScan]

/-! ## C19: tokenization of a concatenation -/

/-- C19: for argument lists `a` and `b` where `a` is empty or ends with a
data value, the tokens of `getMsg (a ++ b)` are the tokens of `getMsg a`
followed by those of `getMsg b`; so are the values, and the type and style
entries of `b` sit at their index shifted by the number of values of `a`. -/
theorem getMsg_append (a b : List Value)
    (ha : a = [] ∨ ∃ p v, a = p ++ [v] ∧ isData v = true) :
    tokens (getMsg (a ++ b)) = tokens (getMsg a) ++ tokens (getMsg b) ∧
    (getMsg (a ++ b)).output = (getMsg a).output ++ (getMsg b).output ∧
    ∀ k, k < (getMsg b).output.length →
      read (getMsg (a ++ b)).type ((getMsg a).output.length + k) = read (getMsg b).type k ∧
      read (getMsg (a ++ b)).styles ((getMsg a).output.length + k)
        = read (getMsg b).styles k := by
  have hpend : pendingAfter none a = none := by
    apply pendingAfter_none
    intro p source flags hp
    rcases ha with rfl | ⟨q, v, rfl, hv⟩
    · simp at hp
    · have h1 := List.append_inj_right' hp rfl
      simp only [List.cons.injEq, and_true] at h1
      rw [h1] at hv
      simp [isData, Value.isRegExp] at hv
  have htok : tokens (getMsg (a ++ b)) = tokens (getMsg a) ++ tokens (getMsg b) := by
    rw [tokens_getMsg, tokens_getMsg, tokens_getMsg, pairScan_append, hpend]
  refine ⟨htok, by simp [output_getMsg], ?_⟩
  intro k hk
  have hget := congrArg (fun l => l[(getMsg a).output.length + k]?) htok
  simp only at hget
  have hla : (tokens (getMsg a)).length = (getMsg a).output.length := by
    simp [tokens, tokensFrom_length]
  rw [List.getElem?_append_right (by omega), hla, Nat.add_sub_cancel_left] at hget
  simp only [tokens, tokensFrom_getElem?, Nat.zero_add] at hget
  have hb : ∃ w, (getMsg b).output[k]? = some w := ⟨_, List.getElem?_eq_getElem hk⟩
  obtain ⟨w, hw⟩ := hb
  rw [hw] at hget
  simp only [Option.map_some', Option.map_eq_some'] at hget
  obtain ⟨w1, _, he⟩ := hget
  injection he with _ h2 h3
  exact ⟨h2, h3⟩

/-- C19 at `a = ["x"]` and `b = [/b/, "y"]`. -/
theorem getMsg_append_witness :
    tokens (getMsg ([.string "x"] ++ [.regexp "b" "", .string "y"]))
      = tokens (getMsg [.string "x"]) ++ tokens (getMsg [.regexp "b" "", .string "y"]) ∧
    read (getMsg ([.string "x"] ++ [.regexp "b" "", .string "y"])).styles 1 = some ["b"] := by
  have h := getMsg_append [.string "x"] [.regexp "b" "", .string "y"]
    (Or.inr ⟨[], .string "x", rfl, rfl⟩)
  exact ⟨h.1, (h.2.2 0 (by decide)).2⟩

/-! ## C11: the rendering for the log file -/

/-- What `display` writes to the log file: nothing when building the
console arguments throws, else one line, the formatted prefix and values. -/
theorem display_logFile (env : Env) (thisPrefix : Option String) (args : List Value)
    (s : Sinks) :
    (∀ e, consoleArgs env.tty (prefixArray thisPrefix) (getMsg args) = .error e →
      (display env thisPrefix args s).2.logFile = s.logFile) ∧
    (∀ shown, consoleArgs env.tty (prefixArray thisPrefix) (getMsg args) = .ok shown →
      (display env thisPrefix args s).2.logFile
        = s.logFile ++ [fileText env.format (prefixArray thisPrefix) (getMsg args)]) := by
  constructor
  · intro e he
    simp [display, he]
  · intro shown hshown
    unfold display
    simp only [hshown]
    cases hp : htmlPara env.format (prefixArray thisPrefix) (getMsg args) with
    | error e => rfl
    | ok para =>
      obtain ⟨n, _, h1, _, _⟩ := notify_spec para env.listeners 0
        { s with
          console := s.console ++ [shown]
          logFile := s.logFile ++ [fileText env.format (prefixArray thisPrefix) (getMsg args)]
          db := s.db ++ [para] }
      simp only
      split
      · next e s4 hn =>
        rw [hn] at h1
        simp only at h1
        rw [h1]
      · next u s4 hn =>
        rw [hn] at h1
        simp only at h1
        rw [h1]

/-- C11: the line `display` writes to the log file is always the plain
form. A call writes no line (when building the console arguments throws) or
exactly one, and that line is `util.format` applied to `%s`, the optional
prefix and the raw data values. It is written whenever every value has a
documented tag; it does not depend on `tty`, and it is the same for two
argument lists that differ only in their directives. No result of
`termMapper` is ever passed to the file. -/
theorem file_rendering_plain (env : Env) (thisPrefix : Option String) (args : List Value)
    (s : Sinks) :
    ((display env thisPrefix args s).2.logFile = s.logFile ∨
      (display env thisPrefix args s).2.logFile
        = s.logFile ++ [env.format (.string "%s" ::
            ((prefixArray thisPrefix).map Value.string ++ args.filter isData))]) ∧
    ((∀ v ∈ args, typeTag v ∈ documentedTags) →
      (display env thisPrefix args s).2.logFile
        = s.logFile ++ [env.format (.string "%s" ::
            ((prefixArray thisPrefix).map Value.string ++ args.filter isData))]) ∧
    (∀ (env2 : Env) (args2 : List Value), env2.format = env.format →
      args2.filter isData = args.filter isData →
      (∀ v ∈ args, typeTag v ∈ documentedTags) → (∀ v ∈ args2, typeTag v ∈ documentedTags) →
      (display env2 thisPrefix args2 s).2.logFile
        = (display env thisPrefix args s).2.logFile) := by
  have htext : ∀ (e : Env) (a : List Value),
      fileText e.format (prefixArray thisPrefix) (getMsg a)
        = e.format (.string "%s" ::
            ((prefixArray thisPrefix).map Value.string ++ a.filter isData)) := by
    intro e a
    simp [fileText, output_getMsg]
  have hdocline : ∀ (e : Env) (a : List Value), (∀ v ∈ a, typeTag v ∈ documentedTags) →
      (display e thisPrefix a s).2.logFile
        = s.logFile ++ [e.format (.string "%s" ::
            ((prefixArray thisPrefix).map Value.string ++ a.filter isData))] := by
    intro e a hdoc
    obtain ⟨shown, hshown⟩ := consoleArgs_ok e.tty thisPrefix a hdoc
    rw [(display_logFile e thisPrefix a s).2 shown hshown, htext]
  refine ⟨?_, hdocline env args, ?_⟩
  · cases hc : consoleArgs env.tty (prefixArray thisPrefix) (getMsg args) with
    | error e => exact Or.inl ((display_logFile env thisPrefix args s).1 e hc)
    | ok shown =>
      refine Or.inr ?_
      rw [(display_logFile env thisPrefix args s).2 shown hc, htext]
  · intro env2 args2 hfmt hdata hdoc hdoc2
    rw [hdocline env args hdoc, hdocline env2 args2 hdoc2, hfmt, hdata]

/-- C11 at `log(/red/, "x")` on a terminal and `log("x")` off a terminal,
both from a caller whose prefix is `conf`. -/
theorem file_rendering_plain_witness :
    (display ⟨true, fun vs => join "|" (vs.map fun v => (toStr v).toOption.getD ""), []⟩
        (some "conf") [.regexp "red" "", .string "x"] Sinks.empty).2.logFile = ["%s|conf|x"] ∧
    (display ⟨false, fun vs => join "|" (vs.map fun v => (toStr v).toOption.getD ""), []⟩
        (some "conf") [.string "x"] Sinks.empty).2.logFile = ["%s|conf|x"] := by
  constructor
  · rw [(file_rendering_plain
      ⟨true, fun vs => join "|" (vs.map fun v => (toStr v).toOption.getD ""), []⟩
      (some "conf") [.regexp "red" "", .string "x"] Sinks.empty).2.1 (by decide)]
    decide
  · decide

/-! ## C14: the container element -/

theorem strings_of_all_string (bs : List Value)
    (h : ∀ b ∈ bs, ∃ text, b = Value.string text) :
    ∃ texts, bs = texts.map Value.string ∧ mapThrow joinItem bs = .ok texts := by
  induction bs with
  | nil => exact ⟨[], rfl, rfl⟩
  | cons b bs ih =>
    obtain ⟨text, rfl⟩ := h b (by simp)
    obtain ⟨texts, h1, h2⟩ := ih (fun c hc => h c (by simp [hc]))
    exact ⟨text :: texts, by simp [h1], by simp [mapThrow, joinItem, toStr, h2]⟩

/-- The attributes of the container: the two attributes of a non-empty
prefix, nothing otherwise. -/
theorem container_attributes :
    (∀ name, name ≠ "" →
      join "" ((prefixArray (some name)).map prefixHtmlMapper)
        = " data-name=\"" ++ name ++ "\" class=\"" ++ name ++ "\"") ∧
    join "" ((prefixArray none).map prefixHtmlMapper) = "" ∧
    join "" ((prefixArray (some "")).map prefixHtmlMapper) = "" := by
  refine ⟨?_, rfl, rfl⟩
  intro name hname
  simp [prefixArray, hname, join, prefixHtmlMapper]

/-- C14: the fragment `display` builds is one `div`: `<div`, the attributes
of the prefix, `>`, the children of all tokens joined by one space, `</div>`.
It is built whenever every value has a documented tag, one child per value,
and it is the entry a returning call appends to the message store. With a
prefix `p` the attributes are `data-name="p"` and `class="p"`; without a
prefix (or with the empty string) there is none. -/
theorem htmlPara_container (format : List Value → String) (thisPrefix : Option String)
    (args : List Value) :
    (∀ para, htmlPara format (prefixArray thisPrefix) (getMsg args) = .ok para →
      ∃ children texts, mapMsg (htmlMapper format) (getMsg args) = .ok children ∧
        mapThrow joinItem children = .ok texts ∧
        para = "<div" ++ join "" ((prefixArray thisPrefix).map prefixHtmlMapper) ++ ">"
          ++ join " " texts ++ "</div>") ∧
    ((∀ v ∈ args, typeTag v ∈ documentedTags) →
      ∃ texts, mapMsg (htmlMapper format) (getMsg args) = .ok (texts.map Value.string) ∧
        texts.length = (args.filter isData).length ∧
        htmlPara format (prefixArray thisPrefix) (getMsg args)
          = .ok ("<div" ++ join "" ((prefixArray thisPrefix).map prefixHtmlMapper) ++ ">"
              ++ join " " texts ++ "</div>")) ∧
    ((∀ name, name ≠ "" →
      join "" ((prefixArray (some name)).map prefixHtmlMapper)
        = " data-name=\"" ++ name ++ "\" class=\"" ++ name ++ "\"") ∧
      join "" ((prefixArray none).map prefixHtmlMapper) = "" ∧
      join "" ((prefixArray (some "")).map prefixHtmlMapper) = "") ∧
    (∀ (env : Env) (s s1 : Sinks) (msg : Msg), env.format = format →
      display env thisPrefix args s = (.ok msg, s1) →
      ∃ para, htmlPara format (prefixArray thisPrefix) (getMsg args) = .ok para ∧
        s1.db = s.db ++ [para]) := by
  refine ⟨?_, ?_, container_attributes, ?_⟩
  · intro para hpara
    unfold htmlPara at hpara
    cases hm : mapMsg (htmlMapper format) (getMsg args) with
    | error e => simp [hm] at hpara
    | ok children =>
      cases hj : mapThrow joinItem children with
      | error e => simp [hm, joinValues, hj] at hpara
      | ok texts =>
        simp only [hm, joinValues, hj, Except.ok.injEq] at hpara
        exact ⟨children, texts, rfl, hj, hpara.symm⟩
  · intro hdoc
    obtain ⟨bs, hbs, hstr⟩ := mapFrom_ok (htmlMapper format) (getMsg args)
      (fun b => ∃ text, b = Value.string text) (getMsg args).output 0 (fun k v hk => by
        obtain ⟨h2, h3⟩ := getMsg_type_at args k v hk
        obtain ⟨b, hb, ht⟩ := htmlMapper_ok format (getMsg args) k v h2 (hdoc v h3)
        exact ⟨b, by simpa using hb, ht⟩)
    obtain ⟨texts, h1, h2⟩ := strings_of_all_string bs hstr
    have hlen : bs.length = (getMsg args).output.length := by
      have : ∀ (vs : List Value) (i : Nat) (cs : List Value),
          mapFrom (htmlMapper format) (getMsg args) vs i = .ok cs → cs.length = vs.length := by
        intro vs
        induction vs with
        | nil =>
          intro i cs h
          simp only [mapFrom, Except.ok.injEq] at h
          simp [← h]
        | cons v vs ih =>
          intro i cs h
          simp only [mapFrom] at h
          split at h
          · simp at h
          · split at h
            · simp at h
            · next b _ ds hds =>
              simp only [Except.ok.injEq] at h
              simp [← h, ih (i + 1) ds hds]
      exact this _ 0 bs hbs
    refine ⟨texts, ?_, ?_, ?_⟩
    · rw [mapMsg, hbs, h1]
    · rw [← output_getMsg, ← hlen, h1, List.length_map]
    · simp only [htmlPara, mapMsg, hbs, joinValues, h2]
  · intro env s s1 msg hfmt hdisp
    obtain ⟨para, hp, hdb, _⟩ := display_ok env thisPrefix args s s1 msg hdisp
    rw [hfmt] at hp
    exact ⟨para, hp, hdb⟩

/-- C14 at `log("Hello", 42)` from a caller whose prefix is `conf`. -/
theorem htmlPara_container_witness :
    htmlPara (fun _ => "") (prefixArray (some "conf")) (getMsg [.string "Hello", .number "42"])
      = .ok ("<div data-name=\"conf\" class=\"conf\">"
          ++ "<span class=\"string\">Hello</span> <span class=\"number\">42</span>"
          ++ "</div>") := by
  obtain ⟨texts, h1, _, h⟩ := (htmlPara_container (fun _ => "") (some "conf")
    [.string "Hello", .number "42"]).2.1 (by decide)
  have hm : mapMsg (htmlMapper (fun _ => "")) (getMsg [.string "Hello", .number "42"])
      = .ok (["<span class=\"string\">Hello</span>",
          "<span class=\"number\">42</span>"].map Value.string) := by decide
  have hinj : Function.Injective Value.string := fun _ _ e => by injection e
  have e : texts = ["<span class=\"string\">Hello</span>",
      "<span class=\"number\">42</span>"] :=
    List.map_injective_iff.2 hinj (Except.ok.inj (h1.symm.trans hm))
  rw [h, e]
  decide

/-! ## C15: the style attribute -/

theorem htmlMapper_styled (format : List Value → String) (arr : Msg) (i : Nat) (v : Value)
    (type text : String) (styles : List String) (htype : read arr.type i = some type)
    (hobj : type ≠ "object") (hs : read arr.styles i = some styles)
    (ht : toStr v = .ok text) :
    htmlMapper format v i arr = .ok (.string ("<span class=\"" ++ type ++ "\" style=\""
      ++ join ";" (styles.map htmlFragment) ++ "\">" ++ text ++ "</span>")) := by
  have e1 : "<span " ++ "class=\"" = "<span class=\"" := by decide
  have e2 : "\"" ++ " " ++ "style=\"" = "\" style=\"" := by decide
  have e3 : "\"" ++ ">" = "\">" := by decide
  rw [htmlMapper_eq format arr i v type text htype hobj ht, hs]
  simp only [join, String.append_assoc]
  rw [← String.append_assoc "<span ", e1, ← String.append_assoc "\"" " ",
    ← String.append_assoc ("\"" ++ " "), e2, ← String.append_assoc "\"" ">", e3]

/-- C15: for a token that has a style list `styles` and whose type tag is a
documented tag other than `object`, `htmlMapper` emits
`<span class="` tag `" style="` fragments `">` value `</span>`, the fragments
being those of `styles`, in order, joined by `;`: no fragment of a type
default is added. The fragment of a key of `htmlMap` is its entry. -/
theorem htmlMapper_style_attribute (format : List Value → String) (arr : Msg) (i : Nat)
    (v : Value) (styles : List String) (hdoc : typeTag v ∈ documentedTags)
    (hobj : typeTag v ≠ "object") (htype : read arr.type i = some (typeTag v))
    (hs : read arr.styles i = some styles) :
    (∃ text, toStr v = .ok text ∧
      htmlMapper format v i arr = .ok (.string ("<span class=\"" ++ typeTag v ++ "\" style=\""
        ++ join ";" (styles.map htmlFragment) ++ "\">" ++ text ++ "</span>"))) ∧
    (∀ style css, htmlMap.lookup style = some css → htmlFragment style = css) := by
  obtain ⟨_, text, _, _, ht⟩ := documented_cases v hdoc hobj
  refine ⟨⟨text, ht, htmlMapper_styled format arr i v (typeTag v) text styles htype hobj hs ht⟩,
    ?_⟩
  intro style css h
  simp [htmlFragment, h]

/-- C15 at the token of `log(/red b/, 42)`. -/
theorem htmlMapper_style_attribute_witness :
    htmlMapper (fun _ => "") (.number "42") 0 (getMsg [.regexp "red b" "", .number "42"])
      = .ok (.string
          "<span class=\"number\" style=\"color: red;font-weight: bold\">42</span>") := by
  obtain ⟨text, ht, h⟩ := (htmlMapper_style_attribute (fun _ => "")
    (getMsg [.regexp "red b" "", .number "42"]) 0 (.number "42") ["red", "b"]
    (by decide) (by decide) (by decide) (by decide)).1
  have e : text = "42" := Except.ok.inj (ht.symm.trans rfl)
  rw [h, e]
  decide

/-! ## C16: the terminal style table -/

theorem lookup_isSome_keys {β : Type} (l : List (String × β)) (name : String) :
    (l.lookup name).isSome = true ↔ name ∈ l.map Prod.fst := by
  rw [List.lookup_isSome_iff]
  simp only [List.mem_map, beq_iff_eq]
  constructor
  · rintro ⟨p, hp, e⟩
    exact ⟨p, hp, e.symm⟩
  · rintro ⟨p, hp, e⟩
    exact ⟨p, hp, e.symm⟩

/-- C16, as stated, fails: `termMap` has a ninth text colour, `gray` with
code 90, and its background `_gray` with code 100, so the table has 21 style
names, not 8 + 8 + 3. -/
theorem termMap_has_gray :
    termMap.lookup "gray" = some 90 ∧ termMap.lookup "_gray" = some 100 ∧
    termMap.length = 21 ∧ termMap.length ≠ 8 + 8 + 3 := by
  decide

/-- C16, amended: `termMap` is a fixed closed mapping of 21 distinct names.
The eight text colours black to white have the codes 30 to 37 and their
backgrounds, named with a leading underscore, the codes 40 to 47; a ninth
text colour `gray` has the code 90 and its background `_gray` the code 100;
`b` is 1, `i` is 3, `u` is 4; and no other name has a code. -/
theorem termMap_closed :
    (∀ p ∈ (textColors.take 8).enum,
      termMap.lookup p.2 = some (30 + p.1) ∧ termMap.lookup ("_" ++ p.2) = some (40 + p.1)) ∧
    termMap.lookup "gray" = some 90 ∧ termMap.lookup "_gray" = some 100 ∧
    termMap.lookup "b" = some 1 ∧ termMap.lookup "i" = some 3 ∧ termMap.lookup "u" = some 4 ∧
    (termMap.map Prod.fst).Nodup ∧ termMap.length = 21 ∧
    (∀ name, (termMap.lookup name).isSome = true ↔
      name ∈ textColors ++ textColors.map ("_" ++ ·) ++ ["b", "i", "u"]) := by
  refine ⟨by decide, by decide, by decide, by decide, by decide, by decide, by decide,
    by decide, ?_⟩
  intro name
  have hk : termMap.map Prod.fst
      = textColors ++ textColors.map ("_" ++ ·) ++ ["b", "i", "u"] := by decide
  rw [lookup_isSome_keys, hk]

/-! ## C17: the two style tables have the same names -/

/-- C17: `termMap` and `htmlMap` have the same names, in the same order: a
name has a code in `termMap` if and only if it has a fragment in `htmlMap`,
so a name with a code renders in both representations. A text colour maps to
`color:` followed by its name, its underscore name to `background:` followed
by the same colour, and `b`, `i`, `u` to font-weight, font-style and
text-decoration. -/
theorem tables_same_names :
    termMap.map Prod.fst = htmlMap.map Prod.fst ∧
    (∀ name, (termMap.lookup name).isSome = (htmlMap.lookup name).isSome) ∧
    (∀ name code, termMap.lookup name = some code →
      ∃ css, htmlMap.lookup name = some css ∧ termCode name = toString code ∧
        htmlFragment name = css) ∧
    (∀ c ∈ textColors, htmlMap.lookup c = some ("color: " ++ c) ∧
      htmlMap.lookup ("_" ++ c) = some ("background: " ++ c)) ∧
    htmlMap.lookup "b" = some "font-weight: bold" ∧
    htmlMap.lookup "i" = some "font-style: italic" ∧
    htmlMap.lookup "u" = some "text-decoration: underline" := by
  have hk : termMap.map Prod.fst = htmlMap.map Prod.fst := by decide
  have hiff : ∀ name, (termMap.lookup name).isSome = (htmlMap.lookup name).isSome := by
    intro name
    rw [Bool.eq_iff_iff, lookup_isSome_keys, lookup_isSome_keys, hk]
  refine ⟨hk, hiff, ?_, by decide, by decide, by decide, by decide⟩
  intro name code hc
  have h1 := hiff name
  rw [hc] at h1
  cases hh : htmlMap.lookup name with
  | none => simp [hh] at h1
  | some css => exact ⟨css, rfl, by simp [termCode, hc], by simp [htmlFragment, hh]⟩

/-! ## C18: the path scenario -/

/-- C18: `log(/@path/, "/tmp/x.json")` gives one string token with the
styles `u` and `cyan`; its terminal rendering is ESC[35;4;36m, the value and
ESC[0m (the string default, then underline and cyan), and its HTML child is
the span of class `string` with `text-decoration: underline;color: cyan`. -/
theorem path_scenario (format : List Value → String) :
    tokens (getMsg [.regexp "@path" "", .string "/tmp/x.json"])
      = [⟨.string "/tmp/x.json", some "string", some ["u", "cyan"]⟩] ∧
    mapMsg termMapper (getMsg [.regexp "@path" "", .string "/tmp/x.json"])
      = .ok [.string "\x1b[35;4;36m/tmp/x.json\x1b[0m"] ∧
    mapMsg (htmlMapper format) (getMsg [.regexp "@path" "", .string "/tmp/x.json"])
      = .ok [.string ("<span class=\"string\" "
          ++ "style=\"text-decoration: underline;color: cyan\">/tmp/x.json</span>")] := by
  obtain ⟨_, h2⟩ := render_pair format "@path" "" (.string "/tmp/x.json") ["35"] "/tmp/x.json"
    rfl rfl
  refine ⟨by decide, by decide, ?_⟩
  rw [h2]
  decide

/-- C16 amended, at the colour `cyan`, the seventh of the list. -/
theorem termMap_closed_witness :
    termMap.lookup "cyan" = some 36 ∧ termMap.lookup "_cyan" = some 46 :=
  termMap_closed.1 (6, "cyan") (by decide)

/-- C17 at the style `u`, which has the code 4. -/
theorem tables_same_names_witness :
    ∃ css, htmlMap.lookup "u" = some css ∧ termCode "u" = toString 4 ∧ htmlFragment "u" = css :=
  tables_same_names.2.2.1 "u" 4 (by decide)

/-! ## C20: a recorded style list is never empty -/

theorem splitChars_ne_nil (sep : Char) (cs : List Char) : splitChars sep cs ≠ [] := by
  cases cs with
  | nil => simp [splitChars]
  | cons c cs =>
    simp only [splitChars]
    split
    · simp
    · split <;> simp

theorem split_ne_nil (s : String) : split s ≠ [] := by
  simp [split, splitChars_ne_nil]

theorem expandElm_ne_nil (elm : String) : expandElm elm ≠ [] := by
  unfold expandElm
  split
  · exact split_ne_nil _
  · simp

theorem directiveStyles_ne_nil (source flags : String) : directiveStyles source flags ≠ [] := by
  unfold directiveStyles
  cases h : split (directiveBody source flags) with
  | nil => exact absurd h (split_ne_nil _)
  | cons x xs =>
    have hx := expandElm_ne_nil x
    intro hnil
    simp only [List.map_cons, List.flatten_cons, List.append_eq_nil] at hnil
    exact hx hnil.1

/-- Every entry of `styles` is the style list of a directive, when every
entry the loop starts from is. -/
theorem foldl_getMsgStep_styles (P : List String → Prop)
    (hP : ∀ source flags, P (directiveStyles source flags)) (args : List Value) (st : Scan)
    (h : ∀ k l, read st.styles k = some l → P l) :
    ∀ k l, read (args.foldl getMsgStep st).styles k = some l → P l := by
  induction args generalizing st with
  | nil => simpa using h
  | cons a rest ih =>
    rw [List.foldl_cons]
    apply ih
    cases hd : isData a with
    | false =>
      obtain ⟨source, flags, rfl⟩ := isData_false a hd
      intro k l hk
      simp only [getMsgStep] at hk
      by_cases e : k = st.index
      · rw [e, read_assign_same] at hk
        rw [← Option.some.inj hk]
        exact hP source flags
      · rw [read_assign_ne _ _ _ _ e] at hk
        exact h k l hk
    | true =>
      rw [getMsgStep_data st a hd]
      exact h

theorem htmlMapper_plain (format : List Value → String) (arr : Msg) (i : Nat) (v : Value)
    (type text : String) (htype : read arr.type i = some type) (hobj : type ≠ "object")
    (hs : read arr.styles i = none) (ht : toStr v = .ok text) :
    htmlMapper format v i arr
      = .ok (.string ("<span class=\"" ++ type ++ "\">" ++ text ++ "</span>")) := by
  have e1 : "<span " ++ "class=\"" = "<span class=\"" := by decide
  have e3 : "\"" ++ ">" = "\">" := by decide
  rw [htmlMapper_eq format arr i v type text htype hobj ht, hs]
  simp only [join, String.append_assoc]
  rw [← String.append_assoc "<span ", e1, ← String.append_assoc "\"" ">", e3]

/-- C20: the style list the tokenizer records for a directive is never
empty: splitting on spaces yields at least one element and each element
expands to at least one entry. So an entry of `styles` is absent or
non-empty, and for a value whose tag is a documented tag other than `object`
`htmlMapper` emits a `style` attribute exactly when a directive immediately
precedes the value: the span with the fragments of that directive when one
does, the span with the `class` attribute alone when none does. -/
theorem recorded_styles_nonempty :
    (∀ s, split s ≠ []) ∧ (∀ elm, expandElm elm ≠ []) ∧
    (∀ source flags, directiveStyles source flags ≠ []) ∧
    (∀ args k l, read (getMsg args).styles k = some l → l ≠ []) ∧
    (∀ (format : List Value → String) (pre post : List Value) (v : Value),
      typeTag v ∈ documentedTags → typeTag v ≠ "object" →
      ∃ text, toStr v = .ok text ∧
        (∀ p source flags, pre = p ++ [.regexp source flags] →
          htmlMapper format v (pre.filter isData).length (getMsg (pre ++ v :: post))
            = .ok (.string ("<span class=\"" ++ typeTag v ++ "\" style=\""
                ++ join ";" ((directiveStyles source flags).map htmlFragment)
                ++ "\">" ++ text ++ "</span>"))) ∧
        ((∀ p source flags, pre ≠ p ++ [.regexp source flags]) →
          htmlMapper format v (pre.filter isData).length (getMsg (pre ++ v :: post))
            = .ok (.string ("<span class=\"" ++ typeTag v ++ "\">" ++ text ++ "</span>")))) := by
  refine ⟨split_ne_nil, expandElm_ne_nil, directiveStyles_ne_nil, ?_, ?_⟩
  · intro args k l hk
    exact foldl_getMsgStep_styles (fun l => l ≠ []) directiveStyles_ne_nil args Scan.init
      (by simp [Scan.init, read_nil]) k l hk
  · intro format pre post v hdoc hobj
    obtain ⟨_, text, _, _, ht⟩ := documented_cases v hdoc hobj
    have hv : isData v = true := by
      cases v <;> simp_all [isData, Value.isRegExp, typeTag, typeOf]
    obtain ⟨_, h2, h3⟩ := getMsg_at pre post v hv
    refine ⟨text, ht, ?_, ?_⟩
    · intro p source flags hp
      rw [hp, pendingAfter_concat_regexp, ← hp] at h3
      exact htmlMapper_styled format _ _ v (typeTag v) text _ h2 hobj h3 ht
    · intro hp
      rw [pendingAfter_none pre hp] at h3
      exact htmlMapper_plain format _ _ v (typeTag v) text h2 hobj h3 ht

/-- C20 at `log("a", /@nope/, 1)`: the unknown preset still records the
non-empty list `[""]`, and the number gets a `style` attribute. -/
theorem recorded_styles_nonempty_witness :
    read (getMsg [.string "a", .regexp "@nope" "", .number "1"]).styles 1 = some [""] ∧
    htmlMapper (fun _ => "") (.number "1") 1
        (getMsg [.string "a", .regexp "@nope" "", .number "1"])
      = .ok (.string "<span class=\"number\" style=\"\">1</span>") := by
  obtain ⟨text, ht, h, _⟩ := recorded_styles_nonempty.2.2.2.2 (fun _ => "")
    [.string "a", .regexp "@nope" ""] [] (.number "1") (by decide) (by decide)
  have e : text = "1" := Except.ok.inj (ht.symm.trans rfl)
  have h1 := h [.string "a"] "@nope" "" rfl
  rw [e] at h1
  exact ⟨by decide, h1⟩

end Log
